import Mathlib

/-!
Verification of the BitacoraFx account/entry balance-consistency layer.

The development shallowly embeds the data-access layer of the repository:
the entity model (`src/models`), the Firestore-backed remote variant
(`accounts.api.ts`, `entries.api.ts`), the AsyncStorage-backed local variant
(`accounts.local.ts`, `entries.local.ts`), the dispatching facade
(`api/accounts.ts`, `api/entries.ts`) and the balance protocol carried out by
the Dashboard screen handlers (`DashboardScreen.tsx`).

Numbers are embedded as `Int` (the claims only move values around and add
them; no property proved here depends on rounding of JS floats), dates and
timestamps as `Nat` (milliseconds), generated document ids and timestamps are
threaded explicitly as parameters, playing the role of mocked transports.
-/

namespace BitacoraFx

/-! ## Entity model (`src/models`, `src/types/index.ts`) -/

structure TradingAccount where
  id : String
  name : String
  initialBalance : Int
  currentBalance : Int
  currency : String
  createdAt : Nat
  updatedAt : Nat
deriving DecidableEq, Repr

structure DailyEntry where
  id : String
  accountId : String
  date : Nat
  profitLoss : Int
  balance : Int
  notes : Option String
  createdAt : Nat
  updatedAt : Nat
deriving DecidableEq, Repr

/-- `CreateTradingAccountInput = Omit<TradingAccount, id/createdAt/updatedAt/currentBalance>` -/
structure CreateTradingAccountInput where
  name : String
  initialBalance : Int
  currency : String
deriving DecidableEq, Repr

/-- `UpdateTradingAccountInput`: all mutable fields optional (`Partial<...>`);
`none` means the key is absent from the update object. -/
structure UpdateTradingAccountInput where
  name : Option String := none
  initialBalance : Option Int := none
  currentBalance : Option Int := none
  currency : Option String := none
deriving DecidableEq, Repr

/-- `CreateDailyEntryInput = Omit<DailyEntry, id/createdAt/updatedAt>` -/
structure CreateDailyEntryInput where
  accountId : String
  date : Nat
  profitLoss : Int
  balance : Int
  notes : Option String
deriving DecidableEq, Repr

/-- `UpdateDailyEntryInput`: all fields optional. For `notes` the outer
`Option` is key presence and the inner one the (possibly `undefined`) value,
since the Dashboard screen passes `notes: editEntry.notes || undefined`. -/
structure UpdateDailyEntryInput where
  accountId : Option String := none
  date : Option Nat := none
  profitLoss : Option Int := none
  balance : Option Int := none
  notes : Option (Option String) := none
deriving DecidableEq, Repr

/-- Error taxonomy of the layer: thrown not-found errors, the facade's
`accountId is required` validation errors, and storage-medium failures. -/
inductive ApiError where
  | notFound
  | validation
  | storage
deriving DecidableEq, Repr

/-- Object-spread merge `{...account, ...updates, updatedAt: now}`. -/
def applyAccountUpdate (a : TradingAccount) (u : UpdateTradingAccountInput)
    (now : Nat) : TradingAccount :=
  { a with
    name := u.name.getD a.name
    initialBalance := u.initialBalance.getD a.initialBalance
    currentBalance := u.currentBalance.getD a.currentBalance
    currency := u.currency.getD a.currency
    updatedAt := now }

/-- Object-spread merge `{...entry, ...updates, updatedAt: now}`. -/
def applyEntryUpdate (e : DailyEntry) (u : UpdateDailyEntryInput)
    (now : Nat) : DailyEntry :=
  { e with
    accountId := u.accountId.getD e.accountId
    date := u.date.getD e.date
    profitLoss := u.profitLoss.getD e.profitLoss
    balance := u.balance.getD e.balance
    notes := u.notes.getD e.notes
    updatedAt := now }

/-- The update object `{ currentBalance: b }` used by the balance
propagation in `createEntry`/`updateEntry`. -/
def accountUpdateOfBalance (b : Int) : UpdateTradingAccountInput :=
  { currentBalance := some b }

/-- JS string truthiness of an optional account id, as tested by
`if (!updates.accountId)` and `updates.balance !== undefined && updates.accountId`:
an absent id and the empty string are both falsy. -/
def truthyId : Option String → Option String
  | none => none
  | some s => if s = "" then none else some s

/-! ## Sorting entries by `date` descending

Models both the local variant's `entries.sort((a, b) => b.date.getTime() -
a.date.getTime())` (a stable sort in JS) and the remote query's
`orderBy('date', 'desc')`, as a stable insertion sort. -/

/-- Insert an entry into a date-descending list, before the first strictly
older element (hence before elements of equal date: stability). -/
def insertByDateDesc (e : DailyEntry) : List DailyEntry → List DailyEntry
  | [] => [e]
  | x :: xs => if x.date ≤ e.date then e :: x :: xs else x :: insertByDateDesc e xs

def sortByDateDesc : List DailyEntry → List DailyEntry
  | [] => []
  | x :: xs => insertByDateDesc x (sortByDateDesc xs)

/-! ## Local backend (`accounts.local.ts`, `entries.local.ts`)

AsyncStorage holds one record with the serialized account list under
`@BitacoraFx:accounts` and one record per account with that account's
serialized entry list under `@BitacoraFx:entries_<accountId>`; the store is
the deserialized content of those records.  Each operation returns the thrown
or returned outcome together with the storage state it leaves behind (an
operation that throws midway keeps its earlier writes). -/

namespace LocalBackend

structure Store where
  accounts : List TradingAccount
  buckets : List (String × List DailyEntry)
deriving DecidableEq, Repr

def emptyStore : Store := { accounts := [], buckets := [] }

def lookupBucket : List (String × List DailyEntry) → String → Option (List DailyEntry)
  | [], _ => none
  | (k, es) :: rest, a => if k = a then some es else lookupBucket rest a

/-- `AsyncStorage.setItem` on an entries key. -/
def setBucket : List (String × List DailyEntry) → String → List DailyEntry →
    List (String × List DailyEntry)
  | [], a, es => [(a, es)]
  | (k, v) :: rest, a, es =>
    if k = a then (a, es) :: rest else (k, v) :: setBucket rest a es

/-- `AsyncStorage.removeItem` on an entries key. -/
def removeBucket : List (String × List DailyEntry) → String →
    List (String × List DailyEntry)
  | [], _ => []
  | (k, v) :: rest, a => if k = a then rest else (k, v) :: removeBucket rest a

/-- `getStoredEntries`: read of an account's entry record, `[]` when the key
was never written. -/
def getStoredEntries (st : Store) (accountId : String) : List DailyEntry :=
  (lookupBucket st.buckets accountId).getD []

/-- `saveEntries`. -/
def saveEntries (st : Store) (accountId : String) (es : List DailyEntry) : Store :=
  { st with buckets := setBucket st.buckets accountId es }

/-- `createAccountLocal`: append the new account (with
`currentBalance = initialBalance`) to the stored list. -/
def createAccountLocal (st : Store) (account : CreateTradingAccountInput)
    (newId : String) (now : Nat) : Except ApiError String × Store :=
  let newAccount : TradingAccount :=
    { id := newId, name := account.name, initialBalance := account.initialBalance,
      currentBalance := account.initialBalance, currency := account.currency,
      createdAt := now, updatedAt := now }
  (Except.ok newId, { st with accounts := st.accounts ++ [newAccount] })

/-- `findIndex` + in-place merge on the account list; `none` when no account
has the id. -/
def updateAccountList : List TradingAccount → String → UpdateTradingAccountInput →
    Nat → Option (List TradingAccount)
  | [], _, _, _ => none
  | a :: rest, id, u, now =>
    if a.id = id then some (applyAccountUpdate a u now :: rest)
    else (updateAccountList rest id u now).map (fun l => a :: l)

/-- `updateAccountLocal`: throws `Account with id ... not found` when the id
is absent. -/
def updateAccountLocal (st : Store) (id : String) (updates : UpdateTradingAccountInput)
    (now : Nat) : Except ApiError Unit × Store :=
  match updateAccountList st.accounts id updates now with
  | some accs => (Except.ok (), { st with accounts := accs })
  | none => (Except.error ApiError.notFound, st)

/-- `deleteAccountLocal`: filter the account out of the list and remove the
account's entries record outright. -/
def deleteAccountLocal (st : Store) (id : String) : Except ApiError Unit × Store :=
  (Except.ok (),
    { accounts := st.accounts.filter (fun a => a.id ≠ id),
      buckets := removeBucket st.buckets id })

def getAllAccountsLocal (st : Store) : List TradingAccount :=
  st.accounts

def getAccountByIdLocal (st : Store) (id : String) : Option TradingAccount :=
  st.accounts.find? (fun a => a.id = id)

/-- `createEntryLocal`: unshift the new entry onto the account's stored list,
save, then propagate `entry.balance` into the account's `currentBalance` via
`updateAccountLocal` (whose not-found error surfaces after the entry write). -/
def createEntryLocal (st : Store) (entry : CreateDailyEntryInput)
    (newId : String) (now : Nat) : Except ApiError String × Store :=
  let entries := getStoredEntries st entry.accountId
  let newEntry : DailyEntry :=
    { id := newId, accountId := entry.accountId, date := entry.date,
      profitLoss := entry.profitLoss, balance := entry.balance,
      notes := entry.notes, createdAt := now, updatedAt := now }
  let st1 := saveEntries st entry.accountId (newEntry :: entries)
  match updateAccountLocal st1 entry.accountId (accountUpdateOfBalance entry.balance) now with
  | (Except.ok _, st2) => (Except.ok newId, st2)
  | (Except.error e, st2) => (Except.error e, st2)

/-- `findIndex` + in-place merge on an entry list. -/
def updateEntryList : List DailyEntry → String → UpdateDailyEntryInput →
    Nat → Option (List DailyEntry)
  | [], _, _, _ => none
  | e :: rest, id, u, now =>
    if e.id = id then some (applyEntryUpdate e u now :: rest)
    else (updateEntryList rest id u now).map (fun l => e :: l)

/-- `updateEntryLocal`: throws when the id is not in the account's stored
list; otherwise merges, saves, and, when `updates.balance` is present,
propagates it into the account's `currentBalance`. -/
def updateEntryLocal (st : Store) (id : String) (accountId : String)
    (updates : UpdateDailyEntryInput) (now : Nat) : Except ApiError Unit × Store :=
  match updateEntryList (getStoredEntries st accountId) id updates now with
  | none => (Except.error ApiError.notFound, st)
  | some es =>
    let st1 := saveEntries st accountId es
    match updates.balance with
    | some b => updateAccountLocal st1 accountId (accountUpdateOfBalance b) now
    | none => (Except.ok (), st1)

/-- `deleteEntryLocal`: filter the id out of the account's stored list and
save; never an error, never touches the account list. -/
def deleteEntryLocal (st : Store) (id : String) (accountId : String) :
    Except ApiError Unit × Store :=
  (Except.ok (),
    saveEntries st accountId ((getStoredEntries st accountId).filter (fun e => e.id ≠ id)))

/-- `getEntriesByAccountLocal`: the stored list sorted by date descending. -/
def getEntriesByAccountLocal (st : Store) (accountId : String) : List DailyEntry :=
  sortByDateDesc (getStoredEntries st accountId)

end LocalBackend

/-! ## Remote backend (`accounts.api.ts`, `entries.api.ts`)

Firestore holds two flat collections; a document's id is the `id` field of
the record.  `addDoc` appends a document with a generated id, `updateDoc`
merges into the document with the id and fails when it does not exist,
`deleteDoc` removes it and is a no-op on a missing id. -/

namespace Firestore

structure Store where
  accounts : List TradingAccount
  entries : List DailyEntry
deriving DecidableEq, Repr

def emptyStore : Store := { accounts := [], entries := [] }

/-- `createAccount`. -/
def createAccount (st : Store) (account : CreateTradingAccountInput)
    (newId : String) (now : Nat) : Except ApiError String × Store :=
  let newAccount : TradingAccount :=
    { id := newId, name := account.name, initialBalance := account.initialBalance,
      currentBalance := account.initialBalance, currency := account.currency,
      createdAt := now, updatedAt := now }
  (Except.ok newId, { st with accounts := st.accounts ++ [newAccount] })

/-- `updateAccount`: `updateDoc` on the accounts collection. -/
def updateAccount (st : Store) (id : String) (updates : UpdateTradingAccountInput)
    (now : Nat) : Except ApiError Unit × Store :=
  match LocalBackend.updateAccountList st.accounts id updates now with
  | some accs => (Except.ok (), { st with accounts := accs })
  | none => (Except.error ApiError.notFound, st)

/-- `deleteAccount`: delete the account document, then fan out deletion of
every entry whose `accountId` matches. -/
def deleteAccount (st : Store) (id : String) : Except ApiError Unit × Store :=
  (Except.ok (),
    { accounts := st.accounts.filter (fun a => a.id ≠ id),
      entries := st.entries.filter (fun e => e.accountId ≠ id) })

def getAllAccounts (st : Store) : List TradingAccount :=
  st.accounts

/-- `getAccountById`: `getDoc`, `null` when the document does not exist. -/
def getAccountById (st : Store) (id : String) : Option TradingAccount :=
  st.accounts.find? (fun a => a.id = id)

/-- `createEntry`: `addDoc` the entry, then propagate `entry.balance` into
the owning account's `currentBalance` via `updateAccount`. -/
def createEntry (st : Store) (entry : CreateDailyEntryInput)
    (newId : String) (now : Nat) : Except ApiError String × Store :=
  let newEntry : DailyEntry :=
    { id := newId, accountId := entry.accountId, date := entry.date,
      profitLoss := entry.profitLoss, balance := entry.balance,
      notes := entry.notes, createdAt := now, updatedAt := now }
  let st1 : Store := { st with entries := st.entries ++ [newEntry] }
  match updateAccount st1 entry.accountId (accountUpdateOfBalance entry.balance) now with
  | (Except.ok _, st2) => (Except.ok newId, st2)
  | (Except.error e, st2) => (Except.error e, st2)

/-- `updateEntry`: `updateDoc` on the entry, then, only when
`updates.balance !== undefined && updates.accountId`, propagate the balance
into the account named by `updates.accountId`. -/
def updateEntry (st : Store) (id : String) (updates : UpdateDailyEntryInput)
    (now : Nat) : Except ApiError Unit × Store :=
  match LocalBackend.updateEntryList st.entries id updates now with
  | none => (Except.error ApiError.notFound, st)
  | some es =>
    let st1 : Store := { st with entries := es }
    match updates.balance, truthyId updates.accountId with
    | some b, some k => updateAccount st1 k (accountUpdateOfBalance b) now
    | _, _ => (Except.ok (), st1)

/-- `deleteEntry`: `deleteDoc` on the entry document only. -/
def deleteEntry (st : Store) (id : String) : Except ApiError Unit × Store :=
  (Except.ok (), { st with entries := st.entries.filter (fun e => e.id ≠ id) })

/-- `getEntriesByAccount`: filter by `accountId` equality, order by date
descending. -/
def getEntriesByAccount (st : Store) (accountId : String) : List DailyEntry :=
  sortByDateDesc (st.entries.filter (fun e => e.accountId = accountId))

end Firestore

/-! ## API facade (`api/accounts.ts`, `api/entries.ts`)

One operation set; `useLocal` is fixed for the process lifetime, so the two
step functions below are the facade as seen with each backend active.  The
local `updateEntry` branch requires a truthy `updates.accountId` and the
local `deleteEntry` branch a truthy `accountId` argument, throwing an
`accountId is required` error otherwise; the remote branches have no such
check (and remote `deleteEntry` ignores the `accountId` argument). -/

inductive Op where
  | createAccount (input : CreateTradingAccountInput)
  | updateAccount (id : String) (updates : UpdateTradingAccountInput)
  | deleteAccount (id : String)
  | getAllAccounts
  | getAccountById (id : String)
  | createEntry (input : CreateDailyEntryInput)
  | updateEntry (id : String) (updates : UpdateDailyEntryInput)
  | deleteEntry (id : String) (accountId : Option String)
  | getEntriesByAccount (accountId : String)
deriving DecidableEq, Repr

/-- Observable result of one facade operation. -/
inductive Ret where
  | newId (id : String)
  | done
  | accountList (l : List TradingAccount)
  | accountOpt (a : Option TradingAccount)
  | entryList (l : List DailyEntry)
deriving DecidableEq, Repr

/-- Outcome of one facade operation: the returned observable value or the
thrown error. -/
abbrev Out := Except ApiError Ret

instance instDecidableEqExcept {ε α : Type} [DecidableEq ε] [DecidableEq α] :
    DecidableEq (Except ε α)
  | Except.error e, Except.error f =>
    if h : e = f then isTrue (by rw [h])
    else isFalse (by intro hh; cases hh; exact h rfl)
  | Except.error _, Except.ok _ => isFalse (by intro hh; cases hh)
  | Except.ok _, Except.error _ => isFalse (by intro hh; cases hh)
  | Except.ok a, Except.ok b =>
    if h : a = b then isTrue (by rw [h])
    else isFalse (by intro hh; cases hh; exact h rfl)

/-- The facade with the local backend active (`useLocal = true`).  `g` is the
id the backend would generate for a create, `now` the current timestamp. -/
def stepLocal (st : LocalBackend.Store) (op : Op) (g : String) (now : Nat) :
    Out × LocalBackend.Store :=
  match op with
  | Op.createAccount input =>
    let (r, st1) := LocalBackend.createAccountLocal st input g now
    (r.map Ret.newId, st1)
  | Op.updateAccount id u =>
    let (r, st1) := LocalBackend.updateAccountLocal st id u now
    (r.map (fun _ => Ret.done), st1)
  | Op.deleteAccount id =>
    let (r, st1) := LocalBackend.deleteAccountLocal st id
    (r.map (fun _ => Ret.done), st1)
  | Op.getAllAccounts =>
    (Except.ok (Ret.accountList (LocalBackend.getAllAccountsLocal st)), st)
  | Op.getAccountById id =>
    (Except.ok (Ret.accountOpt (LocalBackend.getAccountByIdLocal st id)), st)
  | Op.createEntry input =>
    let (r, st1) := LocalBackend.createEntryLocal st input g now
    (r.map Ret.newId, st1)
  | Op.updateEntry id u =>
    match truthyId u.accountId with
    | none => (Except.error ApiError.validation, st)
    | some k =>
      let (r, st1) := LocalBackend.updateEntryLocal st id k u now
      (r.map (fun _ => Ret.done), st1)
  | Op.deleteEntry id a =>
    match truthyId a with
    | none => (Except.error ApiError.validation, st)
    | some k =>
      let (r, st1) := LocalBackend.deleteEntryLocal st id k
      (r.map (fun _ => Ret.done), st1)
  | Op.getEntriesByAccount k =>
    (Except.ok (Ret.entryList (LocalBackend.getEntriesByAccountLocal st k)), st)

/-- The facade with the remote backend active (`useLocal = false`). -/
def stepRemote (st : Firestore.Store) (op : Op) (g : String) (now : Nat) :
    Out × Firestore.Store :=
  match op with
  | Op.createAccount input =>
    let (r, st1) := Firestore.createAccount st input g now
    (r.map Ret.newId, st1)
  | Op.updateAccount id u =>
    let (r, st1) := Firestore.updateAccount st id u now
    (r.map (fun _ => Ret.done), st1)
  | Op.deleteAccount id =>
    let (r, st1) := Firestore.deleteAccount st id
    (r.map (fun _ => Ret.done), st1)
  | Op.getAllAccounts =>
    (Except.ok (Ret.accountList (Firestore.getAllAccounts st)), st)
  | Op.getAccountById id =>
    (Except.ok (Ret.accountOpt (Firestore.getAccountById st id)), st)
  | Op.createEntry input =>
    let (r, st1) := Firestore.createEntry st input g now
    (r.map Ret.newId, st1)
  | Op.updateEntry id u =>
    let (r, st1) := Firestore.updateEntry st id u now
    (r.map (fun _ => Ret.done), st1)
  | Op.deleteEntry id _ =>
    let (r, st1) := Firestore.deleteEntry st id
    (r.map (fun _ => Ret.done), st1)
  | Op.getEntriesByAccount k =>
    (Except.ok (Ret.entryList (Firestore.getEntriesByAccount st k)), st)

/-- A scheduled operation: the facade call together with the id the backend
would generate and the timestamp at which it runs (the mocked transports of
the equivalence property). -/
abbrev ScheduledOp := Op × String × Nat

def runLocal : LocalBackend.Store → List ScheduledOp → List Out × LocalBackend.Store
  | st, [] => ([], st)
  | st, (op, g, now) :: rest =>
    let (o, st1) := stepLocal st op g now
    let (os, st2) := runLocal st1 rest
    (o :: os, st2)

def runRemote : Firestore.Store → List ScheduledOp → List Out × Firestore.Store
  | st, [] => ([], st)
  | st, (op, g, now) :: rest =>
    let (o, st1) := stepRemote st op g now
    let (os, st2) := runRemote st1 rest
    (o :: os, st2)

/-! ## The balance protocol of the Dashboard screen (`DashboardScreen.tsx`)

The screen keeps `currentBalance` state refreshed by `loadEntries` after
every mutation: the head balance of the fetched date-descending list, or the
account's `initialBalance` when the list is empty.  The handlers below are
its create/update/delete flows, expressed against the facade with the local
backend active. -/

/-- The screen's `currentBalance` state right after `loadEntries`. -/
def headOrInit (st : LocalBackend.Store) (acc : TradingAccount) : Int :=
  match LocalBackend.getEntriesByAccountLocal st acc.id with
  | e :: _ => e.balance
  | [] => acc.initialBalance

/-- `handleCreateEntry`: `newBalance = currentBalance + profitLoss`, then
`createEntry` with that balance. -/
def uiCreateEntry (st : LocalBackend.Store) (acc : TradingAccount)
    (profitLoss : Int) (date : Nat) (notes : Option String) (g : String)
    (now : Nat) : Out × LocalBackend.Store :=
  let newBalance := headOrInit st acc + profitLoss
  stepLocal st
    (Op.createEntry
      { accountId := acc.id, date := date, profitLoss := profitLoss,
        balance := newBalance, notes := notes }) g now

/-- `handleUpdateEntry`: locate the edited entry in the fetched list, take
the predecessor balance (`entries[entryIndex + 1].balance`, or
`account.initialBalance` when the entry is the last), and call `updateEntry`
with the recomputed balance. -/
def uiUpdateEntry (st : LocalBackend.Store) (acc : TradingAccount)
    (entryId : String) (profitLoss : Int) (notes : Option String)
    (now : Nat) : Out × LocalBackend.Store :=
  let entries := LocalBackend.getEntriesByAccountLocal st acc.id
  match entries.findIdx? (fun e => e.id = entryId) with
  | none => (Except.error ApiError.notFound, st)
  | some i =>
    let previousBalance :=
      match entries.get? (i + 1) with
      | some p => p.balance
      | none => acc.initialBalance
    let newBalance := previousBalance + profitLoss
    stepLocal st
      (Op.updateEntry entryId
        { accountId := some acc.id, profitLoss := some profitLoss,
          balance := some newBalance, notes := some notes }) "" now

/-- `handleDeleteEntry`: `deleteEntry`, re-fetch the remaining entries, and
`updateAccount` with the new head balance (or `initialBalance` when the list
is now empty). -/
def uiDeleteEntry (st : LocalBackend.Store) (acc : TradingAccount)
    (entryId : String) (now : Nat) : Out × LocalBackend.Store :=
  let (o1, st1) := stepLocal st (Op.deleteEntry entryId (some acc.id)) "" now
  match o1 with
  | Except.error e => (Except.error e, st1)
  | Except.ok _ =>
    let updatedEntries := LocalBackend.getEntriesByAccountLocal st1 acc.id
    let newCurrentBalance :=
      match updatedEntries with
      | e :: _ => e.balance
      | [] => acc.initialBalance
    stepLocal st1 (Op.updateAccount acc.id (accountUpdateOfBalance newCurrentBalance)) "" now

/-- One §4.3 protocol event on one account, as the Dashboard screen issues
it. -/
inductive ProtoOp where
  | create (profitLoss : Int) (date : Nat) (notes : Option String) (g : String)
  | update (entryId : String) (profitLoss : Int) (notes : Option String)
  | delete (entryId : String)
deriving DecidableEq, Repr

def protoStep (st : LocalBackend.Store) (acc : TradingAccount) :
    ProtoOp → Nat → Out × LocalBackend.Store
  | ProtoOp.create pl date notes g, now => uiCreateEntry st acc pl date notes g now
  | ProtoOp.update entryId pl notes, now => uiUpdateEntry st acc entryId pl notes now
  | ProtoOp.delete entryId, now => uiDeleteEntry st acc entryId now

def runProto (st : LocalBackend.Store) (acc : TradingAccount) :
    List (ProtoOp × Nat) → LocalBackend.Store
  | [] => st
  | (op, now) :: rest => runProto (protoStep st acc op now).2 acc rest

/-! ## The §3 balance invariant -/

/-- §3 invariant: the stored account's `currentBalance` equals the `balance`
of the chronologically most recent entry, or `initialBalance` when the
account has no entries. -/
def balanceInvariant (st : LocalBackend.Store) (acc : TradingAccount) : Prop :=
  (LocalBackend.getAccountByIdLocal st acc.id).map TradingAccount.currentBalance =
    some (headOrInit st acc)

/-- Side conditions under which one Dashboard-screen event is issued:
a created entry carries a fresh generated id and a date newer than every
existing entry of the account (the screen stamps `new Date()`), and an
edited entry is the current head.  The head restriction is the amendment
forced on claim C1: the handlers propagate an edited entry's recomputed
balance into the account unconditionally, so editing a non-head entry breaks
the invariant. -/
def protoOpOK (st : LocalBackend.Store) (acc : TradingAccount) : ProtoOp → Prop
  | ProtoOp.create _ date _ g =>
    (∀ e ∈ LocalBackend.getStoredEntries st acc.id, e.date < date) ∧
    (∀ e ∈ LocalBackend.getStoredEntries st acc.id, e.id ≠ g)
  | ProtoOp.update entryId _ _ =>
    (LocalBackend.getEntriesByAccountLocal st acc.id).head?.map DailyEntry.id =
      some entryId
  | ProtoOp.delete _ => True

def protoWF (st : LocalBackend.Store) (acc : TradingAccount) :
    List (ProtoOp × Nat) → Prop
  | [] => True
  | (op, now) :: rest =>
    protoOpOK st acc op ∧ protoWF (protoStep st acc op now).2 acc rest

/-- Bookkeeping invariant carried through a protocol run: the account record
exists and satisfies the §3 invariant, and the account's stored entries have
pairwise distinct ids and dates. -/
def protoGood (st : LocalBackend.Store) (acc : TradingAccount) : Prop :=
  balanceInvariant st acc ∧
  ((LocalBackend.getStoredEntries st acc.id).map DailyEntry.id).Nodup ∧
  ((LocalBackend.getStoredEntries st acc.id).map DailyEntry.date).Nodup

instance instDecBalanceInvariant (st : LocalBackend.Store) (acc : TradingAccount) :
    Decidable (balanceInvariant st acc) := by
  unfold balanceInvariant
  infer_instance

instance instDecProtoOpOK (st : LocalBackend.Store) (acc : TradingAccount) :
    (op : ProtoOp) → Decidable (protoOpOK st acc op)
  | ProtoOp.create _ date _ g =>
    inferInstanceAs (Decidable ((∀ e ∈ LocalBackend.getStoredEntries st acc.id,
      e.date < date) ∧ ∀ e ∈ LocalBackend.getStoredEntries st acc.id, e.id ≠ g))
  | ProtoOp.update entryId _ _ =>
    inferInstanceAs
      (Decidable ((LocalBackend.getEntriesByAccountLocal st acc.id).head?.map
        DailyEntry.id = some entryId))
  | ProtoOp.delete _ => inferInstanceAs (Decidable True)

instance instDecProtoWF (st : LocalBackend.Store) (acc : TradingAccount) :
    (ops : List (ProtoOp × Nat)) → Decidable (protoWF st acc ops)
  | [] => inferInstanceAs (Decidable True)
  | (op, now) :: rest =>
    have : Decidable (protoWF (protoStep st acc op now).2 acc rest) :=
      instDecProtoWF (protoStep st acc op now).2 acc rest
    inferInstanceAs (Decidable (_ ∧ _))

instance instDecProtoGood (st : LocalBackend.Store) (acc : TradingAccount) :
    Decidable (protoGood st acc) := by
  unfold protoGood
  infer_instance

/-! ## Coupling between the two backends (claim C6) -/

/-- Well-formedness of the local key-value layout: entries keys are distinct
and every entry sits in the bucket of its own `accountId`. -/
def bucketKeysOK (st : LocalBackend.Store) : Prop :=
  (st.buckets.map Prod.fst).Nodup ∧
  ∀ p ∈ st.buckets, ∀ e ∈ p.2, e.accountId = p.1

/-- Coupling relation between a local store and a remote store: the account
lists agree, each account's flat-collection entries are the local bucket in
reverse (the local variant unshifts on create, the remote appends), entry
ids are globally distinct, and each account's entry dates are distinct. -/
def Coupled (st : LocalBackend.Store) (rs : Firestore.Store) : Prop :=
  rs.accounts = st.accounts ∧
  (∀ k, rs.entries.filter (fun e => e.accountId = k) =
    (LocalBackend.getStoredEntries st k).reverse) ∧
  bucketKeysOK st ∧
  (rs.entries.map DailyEntry.id).Nodup ∧
  ∀ k, ((LocalBackend.getStoredEntries st k).map DailyEntry.date).Nodup

/-- Side conditions on one scheduled facade operation, relative to the
current (local) state, under which the two backends stay in lock-step:
creates consume fresh ids and a fresh date for the account, and entry
update/delete calls carry the truthy `accountId` under which the target
entry is actually stored (with a fresh date when an update rewrites the
date). -/
def opOK (st : LocalBackend.Store) : ScheduledOp → Prop
  | (Op.createAccount _, _, _) => True
  | (Op.updateAccount _ _, _, _) => True
  | (Op.deleteAccount _, _, _) => True
  | (Op.getAllAccounts, _, _) => True
  | (Op.getAccountById _, _, _) => True
  | (Op.createEntry input, g, _) =>
    (∀ p ∈ st.buckets, ∀ e ∈ p.2, e.id ≠ g) ∧
    (∀ e ∈ LocalBackend.getStoredEntries st input.accountId, e.date ≠ input.date)
  | (Op.updateEntry id u, _, _) =>
    (match truthyId u.accountId with
     | none => False
     | some k =>
       (∀ p ∈ st.buckets, ∀ e ∈ p.2, e.id = id → p.1 = k) ∧
       (match u.date with
        | none => True
        | some d =>
          ∀ e ∈ LocalBackend.getStoredEntries st k, e.id ≠ id → e.date ≠ d))
  | (Op.deleteEntry id a, _, _) =>
    (match truthyId a with
     | none => False
     | some k => ∀ p ∈ st.buckets, ∀ e ∈ p.2, e.id = id → p.1 = k)
  | (Op.getEntriesByAccount _, _, _) => True

def seqOK (st : LocalBackend.Store) : List ScheduledOp → Prop
  | [] => True
  | sop :: rest =>
    opOK st sop ∧ seqOK (stepLocal st sop.1 sop.2.1 sop.2.2).2 rest

instance instDecOpOK (st : LocalBackend.Store) (sop : ScheduledOp) :
    Decidable (opOK st sop) := by
  obtain ⟨op, g, now⟩ := sop
  cases op with
  | createAccount input => exact inferInstanceAs (Decidable True)
  | updateAccount id u => exact inferInstanceAs (Decidable True)
  | deleteAccount id => exact inferInstanceAs (Decidable True)
  | getAllAccounts => exact inferInstanceAs (Decidable True)
  | getAccountById id => exact inferInstanceAs (Decidable True)
  | createEntry input => exact inferInstanceAs (Decidable (_ ∧ _))
  | updateEntry id u =>
    simp only [opOK]
    cases truthyId u.accountId with
    | none => exact inferInstanceAs (Decidable False)
    | some k =>
      cases u.date with
      | none => exact inferInstanceAs (Decidable (_ ∧ _))
      | some d => exact inferInstanceAs (Decidable (_ ∧ _))
  | deleteEntry id a =>
    simp only [opOK]
    cases truthyId a with
    | none => exact inferInstanceAs (Decidable False)
    | some k => infer_instance
  | getEntriesByAccount k => exact inferInstanceAs (Decidable True)

instance instDecSeqOK (st : LocalBackend.Store) :
    (ops : List ScheduledOp) → Decidable (seqOK st ops)
  | [] => inferInstanceAs (Decidable True)
  | sop :: rest =>
    have : Decidable (seqOK (stepLocal st sop.1 sop.2.1 sop.2.2).2 rest) :=
      instDecSeqOK (stepLocal st sop.1 sop.2.1 sop.2.2).2 rest
    inferInstanceAs (Decidable (_ ∧ _))

/-! ## Fallible reads (claim C8)

The read paths of the storage layer with the underlying medium made
explicit, so that the catch branches are visible: `getStoredAccounts` /
`getStoredEntries` catch a failed `AsyncStorage.getItem` (or failed
deserialization) and return `[]`, and the remote `getAccountById` catches a
failed `getDoc` and returns `null`. -/

/-- Result of a storage-medium read: data, null (key never written), or a
thrown I/O or deserialization error. -/
inductive ReadAttempt (α : Type) where
  | ok (value : Option α)
  | ioFailure
deriving DecidableEq, Repr

/-- `getStoredAccounts` over an explicit medium result. -/
def getStoredAccountsFrom (r : ReadAttempt (List TradingAccount)) :
    List TradingAccount :=
  match r with
  | ReadAttempt.ok (some l) => l
  | ReadAttempt.ok none => []
  | ReadAttempt.ioFailure => []

/-- `getStoredEntries` over an explicit medium result. -/
def getStoredEntriesFrom (r : ReadAttempt (List DailyEntry)) : List DailyEntry :=
  match r with
  | ReadAttempt.ok (some l) => l
  | ReadAttempt.ok none => []
  | ReadAttempt.ioFailure => []

/-- Result of a remote `getDoc`: the document, a missing document, or a
thrown transport error. -/
inductive DocReadAttempt where
  | found (a : TradingAccount)
  | missing
  | ioFailure
deriving DecidableEq, Repr

/-- Remote `getAccountById` over an explicit `getDoc` result. -/
def getAccountByIdFrom : DocReadAttempt → Option TradingAccount
  | DocReadAttempt.found a => some a
  | DocReadAttempt.missing => none
  | DocReadAttempt.ioFailure => none

/-! ## Concrete fixtures for witnesses and counterexamples -/

def sampleAccount : TradingAccount :=
  { id := "A", name := "Main", initialBalance := 1000, currentBalance := 1000,
    currency := "USD", createdAt := 0, updatedAt := 0 }

def sampleEntry : DailyEntry :=
  { id := "e1", accountId := "A", date := 1, profitLoss := 100, balance := 1100,
    notes := none, createdAt := 1, updatedAt := 1 }

/-- A freshly created account with no entries, local variant. -/
def startStore : LocalBackend.Store :=
  { accounts := [sampleAccount], buckets := [] }

/-- A remote store holding the account and one entry. -/
def remoteOne : Firestore.Store :=
  { accounts := [sampleAccount], entries := [sampleEntry] }

/-- §8 item 3 of the specification: three entries with profit/loss
`[100, -30, 50]` recorded on an account with initial balance `1000`. -/
def threeCreates : List (ProtoOp × Nat) :=
  [(ProtoOp.create 100 1 none "e1", 1),
   (ProtoOp.create (-30) 2 none "e2", 2),
   (ProtoOp.create 50 3 none "e3", 3)]

/-- The state after the three creates. -/
def threeStore : LocalBackend.Store := runProto startStore sampleAccount threeCreates

/-- A well-formed facade sequence exercising all mutation kinds, used to
witness the backend-equivalence theorem. -/
def sampleCreateInput : CreateTradingAccountInput :=
  { name := "Main", initialBalance := 1000, currency := "USD" }

def sampleEntryInput : CreateDailyEntryInput :=
  { accountId := "A", date := 1, profitLoss := 100, balance := 1100,
    notes := none }

def sampleEntryUpdate : UpdateDailyEntryInput :=
  { accountId := some "A", profitLoss := some 150, balance := some 1150 }

def equivOps : List ScheduledOp :=
  [(Op.createAccount sampleCreateInput, "A", 0),
   (Op.createEntry sampleEntryInput, "e1", 1),
   (Op.updateEntry "e1" sampleEntryUpdate, "", 2),
   (Op.getEntriesByAccount "A", "", 3),
   (Op.deleteEntry "e1" (some "A"), "", 4),
   (Op.getAllAccounts, "", 5),
   (Op.deleteAccount "A", "", 6),
   (Op.getAccountById "A", "", 7)]

/-! ## Helper lemmas: bucket storage -/

namespace LocalBackend

theorem lookupBucket_setBucket_self (bs : List (String × List DailyEntry))
    (k : String) (es : List DailyEntry) :
    lookupBucket (setBucket bs k es) k = some es := by
  induction bs with
  | nil => simp [setBucket, lookupBucket]
  | cons p rest ih =>
    by_cases h : p.1 = k
    · simp [setBucket, lookupBucket, h]
    · simp only [setBucket, lookupBucket]
      rw [if_neg h]
      simp [lookupBucket, h, ih]

theorem lookupBucket_setBucket_ne (bs : List (String × List DailyEntry))
    (k j : String) (es : List DailyEntry) (hne : j ≠ k) :
    lookupBucket (setBucket bs k es) j = lookupBucket bs j := by
  induction bs with
  | nil => simp [setBucket, lookupBucket, Ne.symm hne]
  | cons p rest ih =>
    by_cases h : p.1 = k
    · simp only [setBucket]
      rw [if_pos h]
      simp [lookupBucket, hne, Ne.symm hne, h]
    · simp only [setBucket]
      rw [if_neg h]
      by_cases hj : p.1 = j
      · simp [lookupBucket, hj]
      · simp [lookupBucket, hj, ih]

theorem lookupBucket_removeBucket_ne (bs : List (String × List DailyEntry))
    (k j : String) (hne : j ≠ k) :
    lookupBucket (removeBucket bs k) j = lookupBucket bs j := by
  induction bs with
  | nil => simp [removeBucket]
  | cons p rest ih =>
    by_cases h : p.1 = k
    · simp only [removeBucket]
      rw [if_pos h]
      have : p.1 ≠ j := by rw [h]; exact Ne.symm hne
      simp [lookupBucket, this]
    · simp only [removeBucket]
      rw [if_neg h]
      by_cases hj : p.1 = j
      · simp [lookupBucket, hj]
      · simp [lookupBucket, hj, ih]

theorem lookupBucket_eq_none (bs : List (String × List DailyEntry))
    (k : String) (h : ∀ p ∈ bs, p.1 ≠ k) : lookupBucket bs k = none := by
  induction bs with
  | nil => simp [lookupBucket]
  | cons p rest ih =>
    simp only [lookupBucket]
    rw [if_neg (h p (List.mem_cons_self p rest))]
    exact ih (fun q hq => h q (List.mem_cons_of_mem p hq))

theorem lookupBucket_removeBucket_self (bs : List (String × List DailyEntry))
    (k : String) (hnd : (bs.map Prod.fst).Nodup) :
    lookupBucket (removeBucket bs k) k = none := by
  induction bs with
  | nil => simp [removeBucket, lookupBucket]
  | cons p rest ih =>
    simp only [List.map_cons, List.nodup_cons] at hnd
    by_cases h : p.1 = k
    · simp only [removeBucket]
      rw [if_pos h]
      apply lookupBucket_eq_none
      intro q hq hqk
      apply hnd.1
      rw [h, ← hqk]
      exact List.mem_map_of_mem Prod.fst hq
    · simp only [removeBucket]
      rw [if_neg h]
      simp only [lookupBucket]
      rw [if_neg h]
      exact ih hnd.2

theorem mem_of_lookupBucket (bs : List (String × List DailyEntry))
    (k : String) (es : List DailyEntry) (h : lookupBucket bs k = some es) :
    (k, es) ∈ bs := by
  induction bs with
  | nil => simp [lookupBucket] at h
  | cons p rest ih =>
    by_cases hk : p.1 = k
    · simp only [lookupBucket] at h
      rw [if_pos hk] at h
      have : p = (k, es) := by
        cases p
        simp only at hk
        simp only [Option.some_inj] at h
        rw [hk, h]
      rw [← this]
      exact List.mem_cons_self p rest
    · simp only [lookupBucket] at h
      rw [if_neg hk] at h
      exact List.mem_cons_of_mem p (ih h)

theorem keys_setBucket_nodup (bs : List (String × List DailyEntry))
    (k : String) (es : List DailyEntry) (hnd : (bs.map Prod.fst).Nodup) :
    ((setBucket bs k es).map Prod.fst).Nodup := by
  induction bs with
  | nil => simp [setBucket]
  | cons p rest ih =>
    simp only [List.map_cons, List.nodup_cons] at hnd
    by_cases h : p.1 = k
    · simp only [setBucket]
      rw [if_pos h]
      simp only [List.map_cons, List.nodup_cons]
      exact ⟨by rw [← h]; exact hnd.1, hnd.2⟩
    · simp only [setBucket]
      rw [if_neg h]
      simp only [List.map_cons, List.nodup_cons]
      constructor
      · intro hmem
        rcases List.mem_map.mp hmem with ⟨q, hq, hqe⟩
        have := mem_keys_of_mem_setBucket rest k es q hq
        rcases this with hin | hkey
        · exact hnd.1 (hqe ▸ List.mem_map_of_mem Prod.fst hin)
        · exact h (hqe ▸ hkey ▸ rfl)
      · exact ih hnd.2
where
  mem_keys_of_mem_setBucket (bs : List (String × List DailyEntry))
      (k : String) (es : List DailyEntry) (q : String × List DailyEntry)
      (hq : q ∈ setBucket bs k es) : q ∈ bs ∨ q.1 = k := by
    induction bs with
    | nil =>
      simp only [setBucket, List.mem_singleton] at hq
      right; rw [hq]
    | cons p rest ih =>
      by_cases h : p.1 = k
      · simp only [setBucket] at hq
        rw [if_pos h] at hq
        rcases List.mem_cons.mp hq with h1 | h1
        · right; rw [h1]
        · left; exact List.mem_cons_of_mem p h1
      · simp only [setBucket] at hq
        rw [if_neg h] at hq
        rcases List.mem_cons.mp hq with h1 | h1
        · left; rw [h1]; exact List.mem_cons_self p rest
        · rcases ih h1 with h2 | h2
          · left; exact List.mem_cons_of_mem p h2
          · right; exact h2

theorem removeBucket_sublist (bs : List (String × List DailyEntry)) (k : String) :
    List.Sublist (removeBucket bs k) bs := by
  induction bs with
  | nil => simp [removeBucket]
  | cons p rest ih =>
    by_cases h : p.1 = k
    · simp only [removeBucket]
      rw [if_pos h]
      exact List.sublist_cons_of_sublist p (List.Sublist.refl rest)
    · simp only [removeBucket]
      rw [if_neg h]
      exact List.Sublist.cons₂ p ih

theorem getStoredEntries_saveEntries_self (st : Store) (k : String)
    (es : List DailyEntry) : getStoredEntries (saveEntries st k es) k = es := by
  simp [getStoredEntries, saveEntries, lookupBucket_setBucket_self]

theorem getStoredEntries_saveEntries_ne (st : Store) (k j : String)
    (es : List DailyEntry) (hne : j ≠ k) :
    getStoredEntries (saveEntries st k es) j = getStoredEntries st j := by
  simp [getStoredEntries, saveEntries, lookupBucket_setBucket_ne _ _ _ _ hne]

theorem accounts_saveEntries (st : Store) (k : String) (es : List DailyEntry) :
    (saveEntries st k es).accounts = st.accounts := rfl

/-! ## Helper lemmas: first-match replacement on lists -/

theorem updateAccountList_eq_none_iff (l : List TradingAccount) (id : String)
    (u : UpdateTradingAccountInput) (now : Nat) :
    updateAccountList l id u now = none ↔ ∀ a ∈ l, a.id ≠ id := by
  induction l with
  | nil => simp [updateAccountList]
  | cons a rest ih =>
    by_cases h : a.id = id
    · simp [updateAccountList, h]
    · simp [updateAccountList, h, ih]

theorem updateAccountList_append (l₁ l₂ : List TradingAccount)
    (a : TradingAccount) (id : String) (u : UpdateTradingAccountInput) (now : Nat)
    (h₁ : ∀ b ∈ l₁, b.id ≠ id) (ha : a.id = id) :
    updateAccountList (l₁ ++ a :: l₂) id u now =
      some (l₁ ++ applyAccountUpdate a u now :: l₂) := by
  induction l₁ with
  | nil => simp [updateAccountList, ha]
  | cons b rest ih =>
    have hb : b.id ≠ id := h₁ b (List.mem_cons_self b rest)
    simp only [List.cons_append, updateAccountList, List.append_eq]
    rw [if_neg hb, ih (fun c hc => h₁ c (List.mem_cons_of_mem b hc))]
    rfl

theorem updateEntryList_eq_none_iff (l : List DailyEntry) (id : String)
    (u : UpdateDailyEntryInput) (now : Nat) :
    updateEntryList l id u now = none ↔ ∀ e ∈ l, e.id ≠ id := by
  induction l with
  | nil => simp [updateEntryList]
  | cons e rest ih =>
    by_cases h : e.id = id
    · simp [updateEntryList, h]
    · simp [updateEntryList, h, ih]

theorem updateEntryList_append (l₁ l₂ : List DailyEntry)
    (x : DailyEntry) (id : String) (u : UpdateDailyEntryInput) (now : Nat)
    (h₁ : ∀ e ∈ l₁, e.id ≠ id) (hx : x.id = id) :
    updateEntryList (l₁ ++ x :: l₂) id u now =
      some (l₁ ++ applyEntryUpdate x u now :: l₂) := by
  induction l₁ with
  | nil => simp [updateEntryList, hx]
  | cons e rest ih =>
    have he : e.id ≠ id := h₁ e (List.mem_cons_self e rest)
    simp only [List.cons_append, updateEntryList, List.append_eq]
    rw [if_neg he, ih (fun c hc => h₁ c (List.mem_cons_of_mem e hc))]
    rfl

end LocalBackend

/-- A `find?` by a Boolean predicate over a list that starts with failures
finds the marked element. -/
theorem find?_append_cons {α : Type} (p : α → Bool) (l₁ l₂ : List α) (a : α)
    (h₁ : ∀ b ∈ l₁, p b = false) (ha : p a = true) :
    (l₁ ++ a :: l₂).find? p = some a := by
  induction l₁ with
  | nil => simp [List.find?_cons, ha]
  | cons b rest ih =>
    simp only [List.cons_append, List.find?_cons]
    rw [h₁ b (List.mem_cons_self b rest)]
    exact ih (fun c hc => h₁ c (List.mem_cons_of_mem b hc))

/-- First-match decomposition of a successful `find?`. -/
theorem find?_eq_some_decomp {α : Type} (p : α → Bool) (l : List α) (a : α)
    (h : l.find? p = some a) :
    ∃ l₁ l₂, l = l₁ ++ a :: l₂ ∧ ∀ b ∈ l₁, p b = false := by
  induction l with
  | nil => simp at h
  | cons b rest ih =>
    by_cases hb : p b
    · rw [List.find?_cons_of_pos _ hb] at h
      exact ⟨[], rest, by simp [Option.some_inj.mp h], by simp⟩
    · rw [List.find?_cons_of_neg _ hb] at h
      rcases ih h with ⟨l₁, l₂, hl, hfalse⟩
      refine ⟨b :: l₁, l₂, by simp [hl], ?_⟩
      intro c hc
      rcases List.mem_cons.mp hc with h1 | h1
      · rw [h1]; simpa using hb
      · exact hfalse c h1

/-! ## Helper lemmas: sorting by date descending -/

theorem perm_insertByDateDesc (e : DailyEntry) (l : List DailyEntry) :
    List.Perm (insertByDateDesc e l) (e :: l) := by
  induction l with
  | nil => simp [insertByDateDesc]
  | cons x xs ih =>
    simp only [insertByDateDesc]
    by_cases h : x.date ≤ e.date
    · rw [if_pos h]
    · rw [if_neg h]
      exact List.Perm.trans (List.Perm.cons x ih) (List.Perm.swap e x xs)

theorem perm_sortByDateDesc (l : List DailyEntry) : List.Perm (sortByDateDesc l) l := by
  induction l with
  | nil => simp [sortByDateDesc]
  | cons x xs ih =>
    simp only [sortByDateDesc]
    exact List.Perm.trans (perm_insertByDateDesc x _) (List.Perm.cons x ih)

theorem mem_sortByDateDesc {a : DailyEntry} {l : List DailyEntry} :
    a ∈ sortByDateDesc l ↔ a ∈ l :=
  (perm_sortByDateDesc l).mem_iff

theorem mem_insertByDateDesc {a e : DailyEntry} {l : List DailyEntry} :
    a ∈ insertByDateDesc e l ↔ a = e ∨ a ∈ l := by
  rw [(perm_insertByDateDesc e l).mem_iff]
  simp

theorem sorted_insertByDateDesc (e : DailyEntry) (l : List DailyEntry)
    (hs : l.Pairwise (fun a b => b.date ≤ a.date)) :
    (insertByDateDesc e l).Pairwise (fun a b => b.date ≤ a.date) := by
  induction l with
  | nil => simp [insertByDateDesc]
  | cons x xs ih =>
    rcases List.pairwise_cons.mp hs with ⟨hx, hxs⟩
    simp only [insertByDateDesc]
    by_cases h : x.date ≤ e.date
    · rw [if_pos h]
      refine List.pairwise_cons.mpr ⟨?_, hs⟩
      intro b hb
      rcases List.mem_cons.mp hb with h1 | h1
      · rw [h1]; exact h
      · exact le_trans (hx b h1) h
    · rw [if_neg h]
      refine List.pairwise_cons.mpr ⟨?_, ih hxs⟩
      intro b hb
      rcases mem_insertByDateDesc.mp hb with h1 | h1
      · rw [h1]; exact le_of_lt (lt_of_not_le h)
      · exact hx b h1

theorem sorted_sortByDateDesc (l : List DailyEntry) :
    (sortByDateDesc l).Pairwise (fun a b => b.date ≤ a.date) := by
  induction l with
  | nil => simp [sortByDateDesc]
  | cons x xs ih =>
    simp only [sortByDateDesc]
    exact sorted_insertByDateDesc x _ ih

/-- A strictly newest element sorts to the front. -/
theorem sortByDateDesc_cons_of_gt (x : DailyEntry) (l : List DailyEntry)
    (h : ∀ e ∈ l, e.date < x.date) :
    sortByDateDesc (x :: l) = x :: sortByDateDesc l := by
  simp only [sortByDateDesc]
  cases hsort : sortByDateDesc l with
  | nil => simp [insertByDateDesc]
  | cons y ys =>
    have hy : y ∈ l := mem_sortByDateDesc.mp (hsort ▸ List.mem_cons_self y ys)
    simp only [insertByDateDesc]
    rw [if_pos (le_of_lt (h y hy))]

/-- The head of the sorted list is the member with the (unique) greatest
date. -/
theorem head?_sortByDateDesc_of_max (x : DailyEntry) (l : List DailyEntry)
    (hx : x ∈ l) (hmax : ∀ e ∈ l, e.date ≤ x.date)
    (hnd : (l.map DailyEntry.date).Nodup) :
    (sortByDateDesc l).head? = some x := by
  cases hsort : sortByDateDesc l with
  | nil =>
    exact absurd (mem_sortByDateDesc.mpr hx) (by rw [hsort]; simp)
  | cons y ys =>
    have hy : y ∈ l := mem_sortByDateDesc.mp (hsort ▸ List.mem_cons_self y ys)
    have hsorted := sorted_sortByDateDesc l
    rw [hsort] at hsorted
    rcases List.pairwise_cons.mp hsorted with ⟨hge, _⟩
    have hxy : x.date = y.date := by
      rcases List.mem_cons.mp (hsort ▸ mem_sortByDateDesc.mpr hx) with h1 | h1
      · rw [h1]
      · exact le_antisymm (hge x h1) (hmax y hy)
    have := List.inj_on_of_nodup_map hnd hx hy (by rw [hxy])
    rw [this]
    rfl

/-- Two date-descending-sorted permutations of a list with pairwise distinct
dates are equal. -/
theorem eq_of_perm_of_sortedDesc (l₁ l₂ : List DailyEntry) (hp : List.Perm l₁ l₂)
    (hs₁ : l₁.Pairwise (fun a b => b.date ≤ a.date))
    (hs₂ : l₂.Pairwise (fun a b => b.date ≤ a.date))
    (hnd : (l₁.map DailyEntry.date).Nodup) : l₁ = l₂ := by
  induction l₁ generalizing l₂ with
  | nil => exact (hp.nil_eq).symm ▸ rfl
  | cons a t₁ ih =>
    cases l₂ with
    | nil => exact absurd hp.symm.nil_eq (by simp)
    | cons b t₂ =>
      rcases List.pairwise_cons.mp hs₁ with ⟨ha, ht₁⟩
      rcases List.pairwise_cons.mp hs₂ with ⟨hb, ht₂⟩
      simp only [List.map_cons, List.nodup_cons] at hnd
      have hab : a = b := by
        rcases List.mem_cons.mp (hp.subset (List.mem_cons_self a t₁)) with h1 | h1
        · exact h1
        · rcases List.mem_cons.mp (hp.symm.subset (List.mem_cons_self b t₂)) with h2 | h2
          · exact h2.symm
          · have hd : a.date = b.date := le_antisymm (hb a h1) (ha b h2)
            exact absurd (hd ▸ List.mem_map_of_mem DailyEntry.date h2) hnd.1
      subst hab
      have htp : List.Perm t₁ t₂ := hp.cons_inv
      rw [ih t₂ htp ht₁ ht₂ hnd.2]

/-- Decomposition of a member whose key occurs exactly once. -/
theorem exists_decomp_of_mem_nodup_ids (l : List DailyEntry) (x : DailyEntry)
    (hnd : (l.map DailyEntry.id).Nodup) (hx : x ∈ l) :
    ∃ l₁ l₂, l = l₁ ++ x :: l₂ ∧ (∀ e ∈ l₁, e.id ≠ x.id) ∧
      (∀ e ∈ l₂, e.id ≠ x.id) := by
  induction l with
  | nil => simp at hx
  | cons e rest ih =>
    simp only [List.map_cons, List.nodup_cons] at hnd
    rcases List.mem_cons.mp hx with h1 | h1
    · subst h1
      refine ⟨[], rest, rfl, by simp, ?_⟩
      intro b hb hbe
      exact hnd.1 (hbe ▸ List.mem_map_of_mem DailyEntry.id hb)
    · rcases ih hnd.2 h1 with ⟨l₁, l₂, hl, hfalse₁, hfalse₂⟩
      refine ⟨e :: l₁, l₂, by simp [hl], ?_, hfalse₂⟩
      intro b hb
      rcases List.mem_cons.mp hb with h2 | h2
      · rw [h2]
        intro hee
        exact hnd.1 (hee ▸ List.mem_map_of_mem DailyEntry.id (hl ▸ (by simp : x ∈ l₁ ++ x :: l₂)))
      · exact hfalse₁ b h2

/-! ## Helper lemmas for the backend coupling (claim C6) -/

theorem truthyId_eq_some {o : Option String} {k : String}
    (h : truthyId o = some k) : o = some k ∧ k ≠ "" := by
  cases o with
  | none => simp [truthyId] at h
  | some s =>
    by_cases hs : s = ""
    · simp [truthyId, hs] at h
    · simp only [truthyId, if_neg hs, Option.some_inj] at h
      subst h
      exact ⟨rfl, hs⟩

theorem mem_setBucket (bs : List (String × List DailyEntry)) (k : String)
    (es : List DailyEntry) (q : String × List DailyEntry)
    (hq : q ∈ LocalBackend.setBucket bs k es) : q ∈ bs ∨ q = (k, es) := by
  induction bs with
  | nil =>
    right
    simpa [LocalBackend.setBucket] using hq
  | cons p rest ih =>
    by_cases h : p.1 = k
    · simp only [LocalBackend.setBucket] at hq
      rw [if_pos h] at hq
      rcases List.mem_cons.mp hq with h1 | h1
      · right; exact h1
      · left; exact List.mem_cons_of_mem p h1
    · simp only [LocalBackend.setBucket] at hq
      rw [if_neg h] at hq
      rcases List.mem_cons.mp hq with h1 | h1
      · left; rw [h1]; exact List.mem_cons_self p rest
      · rcases ih h1 with h2 | h2
        · left; exact List.mem_cons_of_mem p h2
        · right; exact h2

theorem consistent_getStoredEntries {st : LocalBackend.Store}
    (hwf : bucketKeysOK st) (k : String) :
    ∀ e ∈ LocalBackend.getStoredEntries st k, e.accountId = k := by
  intro e he
  unfold LocalBackend.getStoredEntries at he
  cases hl : LocalBackend.lookupBucket st.buckets k with
  | none => rw [hl] at he; simp at he
  | some es =>
    rw [hl] at he
    exact hwf.2 (k, es) (LocalBackend.mem_of_lookupBucket _ _ _ hl) e he

theorem bucketKeysOK_saveEntries {st : LocalBackend.Store} (hwf : bucketKeysOK st)
    (k : String) (es : List DailyEntry) (hes : ∀ e ∈ es, e.accountId = k) :
    bucketKeysOK (LocalBackend.saveEntries st k es) := by
  constructor
  · exact LocalBackend.keys_setBucket_nodup st.buckets k es hwf.1
  · intro p hp e he
    rcases mem_setBucket st.buckets k es p hp with h1 | h1
    · exact hwf.2 p h1 e he
    · subst h1
      exact hes e he

theorem coupled_mem_flat {st : LocalBackend.Store} {rs : Firestore.Store}
    (hc : Coupled st rs) {e : DailyEntry} (he : e ∈ rs.entries) :
    e ∈ LocalBackend.getStoredEntries st e.accountId := by
  have h1 : e ∈ rs.entries.filter (fun x => x.accountId = e.accountId) :=
    List.mem_filter.mpr ⟨he, by simp⟩
  rw [hc.2.1 e.accountId] at h1
  exact List.mem_reverse.mp h1

theorem coupled_mem_bucket {st : LocalBackend.Store} {rs : Firestore.Store}
    (hc : Coupled st rs) {e : DailyEntry} {k : String}
    (he : e ∈ LocalBackend.getStoredEntries st k) :
    e ∈ rs.entries ∧ e.accountId = k := by
  have hacid : e.accountId = k := consistent_getStoredEntries hc.2.2.1 k e he
  have h1 : e ∈ (LocalBackend.getStoredEntries st k).reverse :=
    List.mem_reverse.mpr he
  rw [← hc.2.1 k] at h1
  exact ⟨(List.mem_filter.mp h1).1, hacid⟩

theorem coupled_bucket_ids_nodup {st : LocalBackend.Store} {rs : Firestore.Store}
    (hc : Coupled st rs) (k : String) :
    ((LocalBackend.getStoredEntries st k).map DailyEntry.id).Nodup := by
  have h1 : ((rs.entries.filter (fun e => e.accountId = k)).map DailyEntry.id).Nodup :=
    List.Nodup.sublist (List.Sublist.map _ (List.filter_sublist _)) hc.2.2.2.1
  rw [hc.2.1 k, List.map_reverse] at h1
  exact List.nodup_reverse.mp h1

theorem append_cons_inj_of_key (l₁ l₂ m₁ m₂ : List DailyEntry) (x : DailyEntry)
    (h : l₁ ++ x :: l₂ = m₁ ++ x :: m₂)
    (hl : ∀ e ∈ l₁, e.id ≠ x.id) (hm : ∀ e ∈ m₁, e.id ≠ x.id) :
    l₁ = m₁ ∧ l₂ = m₂ := by
  induction l₁ generalizing m₁ with
  | nil =>
    cases m₁ with
    | nil => simpa using h
    | cons m ms =>
      simp only [List.nil_append, List.cons_append, List.cons.injEq] at h
      exact absurd (show m.id = x.id by rw [h.1])
        (hm m (List.mem_cons_self m ms))
  | cons a as ih =>
    cases m₁ with
    | nil =>
      simp only [List.nil_append, List.cons_append, List.cons.injEq] at h
      exact absurd (show a.id = x.id by rw [h.1])
        (hl a (List.mem_cons_self a as))
    | cons m ms =>
      simp only [List.cons_append, List.cons.injEq] at h
      rcases ih ms h.2 (fun e he => hl e (List.mem_cons_of_mem a he))
        (fun e he => hm e (List.mem_cons_of_mem m he)) with ⟨h1, h2⟩
      exact ⟨by rw [h.1, h1], h2⟩

theorem reverse_append_cons (l₁ l₂ : List DailyEntry) (x : DailyEntry) :
    (l₁ ++ x :: l₂).reverse = l₂.reverse ++ x :: l₁.reverse := by
  simp [List.reverse_append, List.reverse_cons, List.append_assoc]

theorem nodup_middle_replace {α : Type} (xs ys : List α) (a b : α)
    (h : (xs ++ a :: ys).Nodup) (hb1 : b ∉ xs) (hb2 : b ∉ ys) :
    (xs ++ b :: ys).Nodup := by
  rw [List.nodup_middle] at h ⊢
  rcases List.nodup_cons.mp h with ⟨_, h2⟩
  refine List.nodup_cons.mpr ⟨?_, h2⟩
  intro hmem
  rcases List.mem_append.mp hmem with h3 | h3
  · exact hb1 h3
  · exact hb2 h3

theorem filter_accountId_of_ne (l : List DailyEntry) (k id : String) (hne : k ≠ id) :
    (l.filter (fun e => e.accountId ≠ id)).filter (fun e => e.accountId = k) =
      l.filter (fun e => e.accountId = k) := by
  rw [List.filter_filter]
  apply List.filter_congr
  intro e _
  by_cases h : e.accountId = k
  · simp [h, hne]
  · simp [h]

/-- The two getters for an account's entries agree on coupled stores: both
sort permutations of the same bucket by date descending, and the dates are
distinct. -/
theorem coupled_getEntries_eq {st : LocalBackend.Store} {rs : Firestore.Store}
    (hc : Coupled st rs) (k : String) :
    LocalBackend.getEntriesByAccountLocal st k = Firestore.getEntriesByAccount rs k := by
  unfold LocalBackend.getEntriesByAccountLocal Firestore.getEntriesByAccount
  rw [hc.2.1 k]
  apply eq_of_perm_of_sortedDesc
  · exact (perm_sortByDateDesc _).trans
      (((List.reverse_perm _).symm).trans (perm_sortByDateDesc _).symm)
  · exact sorted_sortByDateDesc _
  · exact sorted_sortByDateDesc _
  · exact List.Perm.nodup
      (((perm_sortByDateDesc _).map DailyEntry.date).symm) (hc.2.2.2.2 k)

/-! ## Step equivalence of the two backends, one facade operation at a time -/

theorem stepEquiv_createAccount {st : LocalBackend.Store} {rs : Firestore.Store}
    (hc : Coupled st rs) (input : CreateTradingAccountInput) (g : String) (now : Nat) :
    (stepLocal st (Op.createAccount input) g now).1 =
      (stepRemote rs (Op.createAccount input) g now).1 ∧
    Coupled (stepLocal st (Op.createAccount input) g now).2
      (stepRemote rs (Op.createAccount input) g now).2 := by
  rcases hc with ⟨hacc, hfilt, hwf, hids, hdates⟩
  refine ⟨rfl, ?_, ?_, ?_, ?_, ?_⟩
  · show rs.accounts ++ _ = st.accounts ++ _
    rw [hacc]
  · exact hfilt
  · exact hwf
  · exact hids
  · exact hdates

theorem stepEquiv_updateAccount {st : LocalBackend.Store} {rs : Firestore.Store}
    (hc : Coupled st rs) (id : String) (u : UpdateTradingAccountInput)
    (g : String) (now : Nat) :
    (stepLocal st (Op.updateAccount id u) g now).1 =
      (stepRemote rs (Op.updateAccount id u) g now).1 ∧
    Coupled (stepLocal st (Op.updateAccount id u) g now).2
      (stepRemote rs (Op.updateAccount id u) g now).2 := by
  rcases hc with ⟨hacc, hfilt, hwf, hids, hdates⟩
  cases hul : LocalBackend.updateAccountList st.accounts id u now with
  | none =>
    have hur : LocalBackend.updateAccountList rs.accounts id u now = none := by
      rw [hacc]; exact hul
    have hredL : stepLocal st (Op.updateAccount id u) g now =
        (Except.error ApiError.notFound, st) := by
      simp [stepLocal, LocalBackend.updateAccountLocal, hul, Except.map]
    have hredR : stepRemote rs (Op.updateAccount id u) g now =
        (Except.error ApiError.notFound, rs) := by
      simp [stepRemote, Firestore.updateAccount, hur, Except.map]
    rw [hredL, hredR]
    exact ⟨rfl, hacc, hfilt, hwf, hids, hdates⟩
  | some accs =>
    have hur : LocalBackend.updateAccountList rs.accounts id u now = some accs := by
      rw [hacc]; exact hul
    have hredL : stepLocal st (Op.updateAccount id u) g now =
        (Except.ok Ret.done, { st with accounts := accs }) := by
      simp [stepLocal, LocalBackend.updateAccountLocal, hul, Except.map]
    have hredR : stepRemote rs (Op.updateAccount id u) g now =
        (Except.ok Ret.done, { rs with accounts := accs }) := by
      simp [stepRemote, Firestore.updateAccount, hur, Except.map]
    rw [hredL, hredR]
    exact ⟨rfl, rfl, hfilt, hwf, hids, hdates⟩

theorem stepEquiv_deleteAccount {st : LocalBackend.Store} {rs : Firestore.Store}
    (hc : Coupled st rs) (id : String) (g : String) (now : Nat) :
    (stepLocal st (Op.deleteAccount id) g now).1 =
      (stepRemote rs (Op.deleteAccount id) g now).1 ∧
    Coupled (stepLocal st (Op.deleteAccount id) g now).2
      (stepRemote rs (Op.deleteAccount id) g now).2 := by
  rcases hc with ⟨hacc, hfilt, hwf, hids, hdates⟩
  have hbucket : ∀ k, LocalBackend.getStoredEntries
      (stepLocal st (Op.deleteAccount id) g now).2 k =
      if k = id then [] else LocalBackend.getStoredEntries st k := by
    intro k
    by_cases hk : k = id
    · subst hk
      show (LocalBackend.lookupBucket (LocalBackend.removeBucket st.buckets k) k).getD
        [] = _
      rw [LocalBackend.lookupBucket_removeBucket_self st.buckets k hwf.1]
      simp
    · show (LocalBackend.lookupBucket (LocalBackend.removeBucket st.buckets id) k).getD
        [] = _
      rw [LocalBackend.lookupBucket_removeBucket_ne st.buckets id k hk, if_neg hk]
      rfl
  refine ⟨rfl, ?_, ?_, ?_, ?_, ?_⟩
  · show rs.accounts.filter _ = st.accounts.filter _
    rw [hacc]
  · intro k
    rw [hbucket k]
    by_cases hk : k = id
    · subst hk
      have h1 : (rs.entries.filter (fun e => e.accountId ≠ k)).filter
          (fun e => e.accountId = k) = [] := by
        apply List.filter_eq_nil_iff.mpr
        intro e he
        have h2 : e.accountId ≠ k := by simpa using List.of_mem_filter he
        simpa using h2
      rw [if_pos rfl]
      show (rs.entries.filter (fun e => e.accountId ≠ k)).filter
        (fun e => e.accountId = k) = List.reverse []
      rw [h1]
      rfl
    · rw [if_neg hk]
      show (rs.entries.filter (fun e => e.accountId ≠ id)).filter
        (fun e => e.accountId = k) = _
      rw [filter_accountId_of_ne rs.entries k id hk]
      exact hfilt k
  · constructor
    · exact List.Nodup.sublist
        (List.Sublist.map _ (LocalBackend.removeBucket_sublist st.buckets id)) hwf.1
    · intro p hp e he
      exact hwf.2 p ((LocalBackend.removeBucket_sublist st.buckets id).subset hp) e he
  · exact List.Nodup.sublist (List.Sublist.map _ (List.filter_sublist _)) hids
  · intro k
    rw [hbucket k]
    by_cases hk : k = id
    · rw [if_pos hk]; simp
    · rw [if_neg hk]; exact hdates k

theorem stepEquiv_getAllAccounts {st : LocalBackend.Store} {rs : Firestore.Store}
    (hc : Coupled st rs) (g : String) (now : Nat) :
    (stepLocal st Op.getAllAccounts g now).1 =
      (stepRemote rs Op.getAllAccounts g now).1 ∧
    Coupled (stepLocal st Op.getAllAccounts g now).2
      (stepRemote rs Op.getAllAccounts g now).2 := by
  constructor
  · show Except.ok (Ret.accountList st.accounts) = Except.ok (Ret.accountList rs.accounts)
    rw [hc.1]
  · exact hc

theorem stepEquiv_getAccountById {st : LocalBackend.Store} {rs : Firestore.Store}
    (hc : Coupled st rs) (id : String) (g : String) (now : Nat) :
    (stepLocal st (Op.getAccountById id) g now).1 =
      (stepRemote rs (Op.getAccountById id) g now).1 ∧
    Coupled (stepLocal st (Op.getAccountById id) g now).2
      (stepRemote rs (Op.getAccountById id) g now).2 := by
  constructor
  · show Except.ok (Ret.accountOpt (st.accounts.find? _)) =
      Except.ok (Ret.accountOpt (rs.accounts.find? _))
    rw [hc.1]
  · exact hc

theorem stepEquiv_getEntriesByAccount {st : LocalBackend.Store} {rs : Firestore.Store}
    (hc : Coupled st rs) (k : String) (g : String) (now : Nat) :
    (stepLocal st (Op.getEntriesByAccount k) g now).1 =
      (stepRemote rs (Op.getEntriesByAccount k) g now).1 ∧
    Coupled (stepLocal st (Op.getEntriesByAccount k) g now).2
      (stepRemote rs (Op.getEntriesByAccount k) g now).2 := by
  constructor
  · show Except.ok (Ret.entryList (LocalBackend.getEntriesByAccountLocal st k)) =
      Except.ok (Ret.entryList (Firestore.getEntriesByAccount rs k))
    rw [coupled_getEntries_eq hc k]
  · exact hc

/-- Appending a globally fresh entry to the remote collection corresponds to
unshifting it onto its account's local bucket. -/
theorem coupled_append_entry {st : LocalBackend.Store} {rs : Firestore.Store}
    (hc : Coupled st rs) (e0 : DailyEntry)
    (hg : ∀ k, ∀ e ∈ LocalBackend.getStoredEntries st k, e.id ≠ e0.id)
    (hd : ∀ e ∈ LocalBackend.getStoredEntries st e0.accountId, e.date ≠ e0.date) :
    (∀ k, (rs.entries ++ [e0]).filter (fun e => e.accountId = k) =
      (LocalBackend.getStoredEntries (LocalBackend.saveEntries st e0.accountId
        (e0 :: LocalBackend.getStoredEntries st e0.accountId)) k).reverse) ∧
    bucketKeysOK (LocalBackend.saveEntries st e0.accountId
      (e0 :: LocalBackend.getStoredEntries st e0.accountId)) ∧
    ((rs.entries ++ [e0]).map DailyEntry.id).Nodup ∧
    (∀ k, ((LocalBackend.getStoredEntries (LocalBackend.saveEntries st e0.accountId
      (e0 :: LocalBackend.getStoredEntries st e0.accountId)) k).map
        DailyEntry.date).Nodup) := by
  refine ⟨?_, ?_, ?_, ?_⟩
  · intro k
    by_cases hk : k = e0.accountId
    · subst hk
      rw [List.filter_append, hc.2.1 e0.accountId,
        LocalBackend.getStoredEntries_saveEntries_self, List.reverse_cons]
      congr 1
      simp
    · rw [List.filter_append,
        LocalBackend.getStoredEntries_saveEntries_ne _ _ _ _ hk, ← hc.2.1 k]
      have : [e0].filter (fun e => e.accountId = k) = [] := by
        simp [Ne.symm hk]
      rw [this, List.append_nil]
  · apply bucketKeysOK_saveEntries hc.2.2.1
    intro e he
    rcases List.mem_cons.mp he with h1 | h1
    · rw [h1]
    · exact consistent_getStoredEntries hc.2.2.1 e0.accountId e h1
  · rw [List.map_append]
    apply List.nodup_append.mpr
    refine ⟨hc.2.2.2.1, by simp, ?_⟩
    intro x hx hx2
    simp only [List.map_cons, List.map_nil, List.mem_singleton] at hx2
    rcases List.mem_map.mp hx with ⟨e, he, hee⟩
    exact hg e.accountId e (coupled_mem_flat hc he) (by rw [hee, hx2])
  · intro k
    by_cases hk : k = e0.accountId
    · subst hk
      rw [LocalBackend.getStoredEntries_saveEntries_self]
      simp only [List.map_cons, List.nodup_cons]
      refine ⟨?_, hc.2.2.2.2 e0.accountId⟩
      intro hmem
      rcases List.mem_map.mp hmem with ⟨e, he, hee⟩
      exact hd e he hee
    · rw [LocalBackend.getStoredEntries_saveEntries_ne _ _ _ _ hk]
      exact hc.2.2.2.2 k

theorem stepEquiv_createEntry {st : LocalBackend.Store} {rs : Firestore.Store}
    (hc : Coupled st rs) (input : CreateDailyEntryInput) (g : String) (now : Nat)
    (hg : ∀ k, ∀ e ∈ LocalBackend.getStoredEntries st k, e.id ≠ g)
    (hd : ∀ e ∈ LocalBackend.getStoredEntries st input.accountId,
      e.date ≠ input.date) :
    (stepLocal st (Op.createEntry input) g now).1 =
      (stepRemote rs (Op.createEntry input) g now).1 ∧
    Coupled (stepLocal st (Op.createEntry input) g now).2
      (stepRemote rs (Op.createEntry input) g now).2 := by
  have hfacts := coupled_append_entry hc
    { id := g, accountId := input.accountId, date := input.date,
      profitLoss := input.profitLoss, balance := input.balance,
      notes := input.notes, createdAt := now, updatedAt := now }
    (fun k e he => hg k e he) (fun e he => hd e he)
  have hacc := hc.1
  cases hul : LocalBackend.updateAccountList st.accounts input.accountId
      (accountUpdateOfBalance input.balance) now with
  | none =>
    have hur : LocalBackend.updateAccountList rs.accounts input.accountId
        (accountUpdateOfBalance input.balance) now = none := by
      rw [hacc]; exact hul
    have hredL : stepLocal st (Op.createEntry input) g now =
        (Except.error ApiError.notFound,
          LocalBackend.saveEntries st input.accountId
            ({ id := g, accountId := input.accountId, date := input.date,
               profitLoss := input.profitLoss, balance := input.balance,
               notes := input.notes, createdAt := now, updatedAt := now } ::
              LocalBackend.getStoredEntries st input.accountId)) := by
      simp [stepLocal, LocalBackend.createEntryLocal, LocalBackend.updateAccountLocal,
        LocalBackend.accounts_saveEntries, hul, Except.map]
    have hredR : stepRemote rs (Op.createEntry input) g now =
        (Except.error ApiError.notFound,
          { rs with entries := rs.entries ++
            [{ id := g, accountId := input.accountId, date := input.date,
               profitLoss := input.profitLoss, balance := input.balance,
               notes := input.notes, createdAt := now, updatedAt := now }] }) := by
      simp [stepRemote, Firestore.createEntry, Firestore.updateAccount, hur, Except.map]
    rw [hredL, hredR]
    exact ⟨rfl, hacc, hfacts.1, hfacts.2.1, hfacts.2.2.1, hfacts.2.2.2⟩
  | some accs =>
    have hur : LocalBackend.updateAccountList rs.accounts input.accountId
        (accountUpdateOfBalance input.balance) now = some accs := by
      rw [hacc]; exact hul
    have hredL : stepLocal st (Op.createEntry input) g now =
        (Except.ok (Ret.newId g),
          { LocalBackend.saveEntries st input.accountId
            ({ id := g, accountId := input.accountId, date := input.date,
               profitLoss := input.profitLoss, balance := input.balance,
               notes := input.notes, createdAt := now, updatedAt := now } ::
              LocalBackend.getStoredEntries st input.accountId) with
            accounts := accs }) := by
      simp [stepLocal, LocalBackend.createEntryLocal, LocalBackend.updateAccountLocal,
        LocalBackend.accounts_saveEntries, hul, Except.map]
    have hredR : stepRemote rs (Op.createEntry input) g now =
        (Except.ok (Ret.newId g),
          { accounts := accs, entries := rs.entries ++
            [{ id := g, accountId := input.accountId, date := input.date,
               profitLoss := input.profitLoss, balance := input.balance,
               notes := input.notes, createdAt := now, updatedAt := now }] }) := by
      simp [stepRemote, Firestore.createEntry, Firestore.updateAccount, hur, Except.map]
    rw [hredL, hredR]
    exact ⟨rfl, rfl, hfacts.1, hfacts.2.1, hfacts.2.2.1, hfacts.2.2.2⟩

theorem stepEquiv_deleteEntry {st : LocalBackend.Store} {rs : Firestore.Store}
    (hc : Coupled st rs) (id : String) (a : Option String) (g : String) (now : Nat)
    (hok : ∃ k, truthyId a = some k ∧
      ∀ j, ∀ e ∈ LocalBackend.getStoredEntries st j, e.id = id → j = k) :
    (stepLocal st (Op.deleteEntry id a) g now).1 =
      (stepRemote rs (Op.deleteEntry id a) g now).1 ∧
    Coupled (stepLocal st (Op.deleteEntry id a) g now).2
      (stepRemote rs (Op.deleteEntry id a) g now).2 := by
  rcases hok with ⟨k, htr, honly⟩
  have hredL : stepLocal st (Op.deleteEntry id a) g now =
      (Except.ok Ret.done, LocalBackend.saveEntries st k
        ((LocalBackend.getStoredEntries st k).filter (fun e => e.id ≠ id))) := by
    simp [stepLocal, htr, LocalBackend.deleteEntryLocal, Except.map]
  have hredR : stepRemote rs (Op.deleteEntry id a) g now =
      (Except.ok Ret.done,
        { rs with entries := rs.entries.filter (fun e => e.id ≠ id) }) := by
    simp [stepRemote, Firestore.deleteEntry, Except.map]
  rw [hredL, hredR]
  refine ⟨rfl, hc.1, ?_, ?_, ?_, ?_⟩
  · intro j
    by_cases hj : j = k
    · subst hj
      rw [LocalBackend.getStoredEntries_saveEntries_self]
      calc (rs.entries.filter (fun e => e.id ≠ id)).filter (fun e => e.accountId = j)
          = rs.entries.filter (fun e => decide (e.accountId = j) &&
              decide (e.id ≠ id)) := by
            rw [List.filter_filter]
        _ = (rs.entries.filter (fun e => e.accountId = j)).filter
              (fun e => e.id ≠ id) := by
            rw [List.filter_filter]
            apply List.filter_congr
            intro e _
            exact Bool.and_comm _ _
        _ = ((LocalBackend.getStoredEntries st j).reverse).filter
              (fun e => e.id ≠ id) := by rw [hc.2.1 j]
        _ = ((LocalBackend.getStoredEntries st j).filter
              (fun e => e.id ≠ id)).reverse := List.filter_reverse _ _
    · rw [LocalBackend.getStoredEntries_saveEntries_ne _ _ _ _ hj, ← hc.2.1 j]
      rw [List.filter_filter]
      apply List.filter_congr
      intro e he
      by_cases hek : e.accountId = j
      · have hein : e ∈ LocalBackend.getStoredEntries st j := by
          have := coupled_mem_flat hc he
          rw [hek] at this
          exact this
        have : e.id ≠ id := fun hid => hj (honly j e hein hid)
        simp [hek, this]
      · simp [hek]
  · apply bucketKeysOK_saveEntries hc.2.2.1
    intro e he
    exact consistent_getStoredEntries hc.2.2.1 k e (List.mem_of_mem_filter he)
  · exact List.Nodup.sublist (List.Sublist.map _ (List.filter_sublist _)) hc.2.2.2.1
  · intro j
    by_cases hj : j = k
    · subst hj
      rw [LocalBackend.getStoredEntries_saveEntries_self]
      exact List.Nodup.sublist (List.Sublist.map _ (List.filter_sublist _))
        (hc.2.2.2.2 j)
    · rw [LocalBackend.getStoredEntries_saveEntries_ne _ _ _ _ hj]
      exact hc.2.2.2.2 j

theorem stepEquiv_updateEntry {st : LocalBackend.Store} {rs : Firestore.Store}
    (hc : Coupled st rs) (id : String) (u : UpdateDailyEntryInput)
    (g : String) (now : Nat)
    (hok : ∃ k, truthyId u.accountId = some k ∧
      (∀ j, ∀ e ∈ LocalBackend.getStoredEntries st j, e.id = id → j = k) ∧
      ∀ d, u.date = some d →
        ∀ e ∈ LocalBackend.getStoredEntries st k, e.id ≠ id → e.date ≠ d) :
    (stepLocal st (Op.updateEntry id u) g now).1 =
      (stepRemote rs (Op.updateEntry id u) g now).1 ∧
    Coupled (stepLocal st (Op.updateEntry id u) g now).2
      (stepRemote rs (Op.updateEntry id u) g now).2 := by
  rcases hok with ⟨k, htr, honly, hdatefresh⟩
  rcases truthyId_eq_some htr with ⟨hua, _⟩
  by_cases hex : ∃ x ∈ LocalBackend.getStoredEntries st k, x.id = id
  case neg =>
    have hnoloc : ∀ e ∈ LocalBackend.getStoredEntries st k, e.id ≠ id := by
      intro e he hid
      exact hex ⟨e, he, hid⟩
    have hulL : LocalBackend.updateEntryList (LocalBackend.getStoredEntries st k)
        id u now = none :=
      (LocalBackend.updateEntryList_eq_none_iff _ _ _ _).mpr hnoloc
    have hulR : LocalBackend.updateEntryList rs.entries id u now = none := by
      apply (LocalBackend.updateEntryList_eq_none_iff _ _ _ _).mpr
      intro e he hid
      have h1 := coupled_mem_flat hc he
      have h2 := honly e.accountId e h1 hid
      rw [h2] at h1
      exact hnoloc e h1 hid
    have hredL : stepLocal st (Op.updateEntry id u) g now =
        (Except.error ApiError.notFound, st) := by
      simp [stepLocal, htr, LocalBackend.updateEntryLocal, hulL, Except.map]
    have hredR : stepRemote rs (Op.updateEntry id u) g now =
        (Except.error ApiError.notFound, rs) := by
      simp [stepRemote, Firestore.updateEntry, hulR, Except.map]
    rw [hredL, hredR]
    exact ⟨rfl, hc⟩
  case pos =>
    rcases hex with ⟨x, hxmem, hxid⟩
    have hbnd := coupled_bucket_ids_nodup hc k
    rcases exists_decomp_of_mem_nodup_ids _ x hbnd hxmem with ⟨b₁, b₂, hbd, hb₁, hb₂⟩
    rcases coupled_mem_bucket hc hxmem with ⟨hxr, hxacid⟩
    rcases exists_decomp_of_mem_nodup_ids rs.entries x hc.2.2.2.1 hxr with
      ⟨r₁, r₂, hrd, hr₁, hr₂⟩
    have hulL : LocalBackend.updateEntryList (LocalBackend.getStoredEntries st k)
        id u now = some (b₁ ++ applyEntryUpdate x u now :: b₂) := by
      rw [hbd]
      exact LocalBackend.updateEntryList_append b₁ b₂ x id u now
        (fun e he => hxid ▸ hb₁ e he) hxid
    have hulR : LocalBackend.updateEntryList rs.entries id u now =
        some (r₁ ++ applyEntryUpdate x u now :: r₂) := by
      rw [hrd]
      exact LocalBackend.updateEntryList_append r₁ r₂ x id u now
        (fun e he => hxid ▸ hr₁ e he) hxid
    have hmacid : (applyEntryUpdate x u now).accountId = k := by
      simp [applyEntryUpdate, hua]
    have hold := hc.2.1 k
    rw [hrd, hbd, List.filter_append,
      List.filter_cons_of_pos (by simp [hxacid]), reverse_append_cons] at hold
    rcases append_cons_inj_of_key _ _ _ _ x hold
      (fun e he => hr₁ e (List.mem_of_mem_filter he))
      (fun e he => hb₂ e (List.mem_reverse.mp he)) with ⟨hfr₁, hfr₂⟩
    have hfiltN : ∀ j, (r₁ ++ applyEntryUpdate x u now :: r₂).filter
        (fun e => e.accountId = j) =
        (LocalBackend.getStoredEntries (LocalBackend.saveEntries st k
          (b₁ ++ applyEntryUpdate x u now :: b₂)) j).reverse := by
      intro j
      by_cases hj : j = k
      · subst hj
        rw [LocalBackend.getStoredEntries_saveEntries_self, List.filter_append,
          List.filter_cons_of_pos (by simp [hmacid]), hfr₁, hfr₂,
          reverse_append_cons]
      · rw [LocalBackend.getStoredEntries_saveEntries_ne _ _ _ _ hj,
          List.filter_append,
          List.filter_cons_of_neg (by simp [hmacid, Ne.symm hj]), ← hc.2.1 j,
          hrd, List.filter_append,
          List.filter_cons_of_neg (by simp [hxacid, Ne.symm hj])]
    have hkeysN : bucketKeysOK (LocalBackend.saveEntries st k
        (b₁ ++ applyEntryUpdate x u now :: b₂)) := by
      apply bucketKeysOK_saveEntries hc.2.2.1
      intro e he
      rcases List.mem_append.mp he with h1 | h1
      · exact consistent_getStoredEntries hc.2.2.1 k e
          (hbd ▸ List.mem_append_left _ h1)
      · rcases List.mem_cons.mp h1 with h2 | h2
        · rw [h2]; exact hmacid
        · exact consistent_getStoredEntries hc.2.2.1 k e
            (hbd ▸ List.mem_append_right _ (List.mem_cons_of_mem x h2))
    have hidsN : ((r₁ ++ applyEntryUpdate x u now :: r₂).map DailyEntry.id).Nodup := by
      have : (r₁ ++ applyEntryUpdate x u now :: r₂).map DailyEntry.id =
          rs.entries.map DailyEntry.id := by
        rw [hrd]
        simp [applyEntryUpdate]
      rw [this]
      exact hc.2.2.2.1
    have hdatesN : ∀ j, ((LocalBackend.getStoredEntries (LocalBackend.saveEntries st k
        (b₁ ++ applyEntryUpdate x u now :: b₂)) j).map DailyEntry.date).Nodup := by
      intro j
      by_cases hj : j = k
      · subst hj
        rw [LocalBackend.getStoredEntries_saveEntries_self]
        have holdnd := hc.2.2.2.2 j
        rw [hbd] at holdnd
        simp only [List.map_append, List.map_cons] at holdnd ⊢
        cases hud : u.date with
        | none =>
          have : (applyEntryUpdate x u now).date = x.date := by
            simp [applyEntryUpdate, hud]
          rw [this]
          exact holdnd
        | some d =>
          have hmd : (applyEntryUpdate x u now).date = d := by
            simp [applyEntryUpdate, hud]
          rw [hmd]
          apply nodup_middle_replace _ _ x.date d holdnd
          · intro hmem
            rcases List.mem_map.mp hmem with ⟨e, he, hee⟩
            exact hdatefresh d hud e (hbd ▸ List.mem_append_left _ he)
              (hxid ▸ hb₁ e he) hee
          · intro hmem
            rcases List.mem_map.mp hmem with ⟨e, he, hee⟩
            exact hdatefresh d hud e
              (hbd ▸ List.mem_append_right _ (List.mem_cons_of_mem x he))
              (hxid ▸ hb₂ e he) hee
      · rw [LocalBackend.getStoredEntries_saveEntries_ne _ _ _ _ hj]
        exact hc.2.2.2.2 j
    cases hub : u.balance with
    | none =>
      have hredL : stepLocal st (Op.updateEntry id u) g now =
          (Except.ok Ret.done, LocalBackend.saveEntries st k
            (b₁ ++ applyEntryUpdate x u now :: b₂)) := by
        simp [stepLocal, htr, LocalBackend.updateEntryLocal, hulL, hub, Except.map]
      have hredR : stepRemote rs (Op.updateEntry id u) g now =
          (Except.ok Ret.done,
            { rs with entries := r₁ ++ applyEntryUpdate x u now :: r₂ }) := by
        simp [stepRemote, Firestore.updateEntry, hulR, hub, Except.map]
      rw [hredL, hredR]
      exact ⟨rfl, hc.1, hfiltN, hkeysN, hidsN, hdatesN⟩
    | some b =>
      cases hab : LocalBackend.updateAccountList st.accounts k
          (accountUpdateOfBalance b) now with
      | none =>
        have habR : LocalBackend.updateAccountList rs.accounts k
            (accountUpdateOfBalance b) now = none := by
          rw [hc.1]; exact hab
        have hredL : stepLocal st (Op.updateEntry id u) g now =
            (Except.error ApiError.notFound, LocalBackend.saveEntries st k
              (b₁ ++ applyEntryUpdate x u now :: b₂)) := by
          simp [stepLocal, htr, LocalBackend.updateEntryLocal, hulL, hub,
            LocalBackend.updateAccountLocal, LocalBackend.accounts_saveEntries,
            hab, Except.map]
        have hredR : stepRemote rs (Op.updateEntry id u) g now =
            (Except.error ApiError.notFound,
              { rs with entries := r₁ ++ applyEntryUpdate x u now :: r₂ }) := by
          simp [stepRemote, Firestore.updateEntry, hulR, hub, htr,
            Firestore.updateAccount, habR, Except.map]
        rw [hredL, hredR]
        exact ⟨rfl, hc.1, hfiltN, hkeysN, hidsN, hdatesN⟩
      | some accs =>
        have habR : LocalBackend.updateAccountList rs.accounts k
            (accountUpdateOfBalance b) now = some accs := by
          rw [hc.1]; exact hab
        have hredL : stepLocal st (Op.updateEntry id u) g now =
            (Except.ok Ret.done,
              { LocalBackend.saveEntries st k
                (b₁ ++ applyEntryUpdate x u now :: b₂) with accounts := accs }) := by
          simp [stepLocal, htr, LocalBackend.updateEntryLocal, hulL, hub,
            LocalBackend.updateAccountLocal, LocalBackend.accounts_saveEntries,
            hab, Except.map]
        have hredR : stepRemote rs (Op.updateEntry id u) g now =
            (Except.ok Ret.done,
              { accounts := accs,
                entries := r₁ ++ applyEntryUpdate x u now :: r₂ }) := by
          simp [stepRemote, Firestore.updateEntry, hulR, hub, htr,
            Firestore.updateAccount, habR, Except.map]
        rw [hredL, hredR]
        exact ⟨rfl, rfl, hfiltN, hkeysN, hidsN, hdatesN⟩

/-- A property of every entry of every stored bucket pair transfers to every
entry read through `getStoredEntries`. -/
theorem forall_stored_of_forall_pairs {st : LocalBackend.Store}
    {P : String → DailyEntry → Prop}
    (h : ∀ p ∈ st.buckets, ∀ e ∈ p.2, P p.1 e) :
    ∀ k, ∀ e ∈ LocalBackend.getStoredEntries st k, P k e := by
  intro k e he
  unfold LocalBackend.getStoredEntries at he
  cases hl : LocalBackend.lookupBucket st.buckets k with
  | none => rw [hl] at he; simp at he
  | some es =>
    rw [hl] at he
    exact h (k, es) (LocalBackend.mem_of_lookupBucket _ _ _ hl) e he

/-- One well-formed facade operation takes coupled stores to coupled stores
and produces the same outcome on both backends. -/
theorem stepEquiv {st : LocalBackend.Store} {rs : Firestore.Store}
    (hc : Coupled st rs) (sop : ScheduledOp) (hok : opOK st sop) :
    (stepLocal st sop.1 sop.2.1 sop.2.2).1 =
      (stepRemote rs sop.1 sop.2.1 sop.2.2).1 ∧
    Coupled (stepLocal st sop.1 sop.2.1 sop.2.2).2
      (stepRemote rs sop.1 sop.2.1 sop.2.2).2 := by
  obtain ⟨op, g, now⟩ := sop
  cases op with
  | createAccount input => exact stepEquiv_createAccount hc input g now
  | updateAccount id u => exact stepEquiv_updateAccount hc id u g now
  | deleteAccount id => exact stepEquiv_deleteAccount hc id g now
  | getAllAccounts => exact stepEquiv_getAllAccounts hc g now
  | getAccountById id => exact stepEquiv_getAccountById hc id g now
  | createEntry input =>
    exact stepEquiv_createEntry hc input g now
      (forall_stored_of_forall_pairs hok.1) hok.2
  | updateEntry id u =>
    apply stepEquiv_updateEntry hc id u g now
    simp only [opOK] at hok
    cases htr : truthyId u.accountId with
    | none => rw [htr] at hok; exact absurd hok (by simp)
    | some k =>
      rw [htr] at hok
      refine ⟨k, rfl, ?_, ?_⟩
      · exact forall_stored_of_forall_pairs hok.1
      · intro d hud
        have := hok.2
        rw [hud] at this
        exact this
  | deleteEntry id a =>
    apply stepEquiv_deleteEntry hc id a g now
    simp only [opOK] at hok
    cases htr : truthyId a with
    | none => rw [htr] at hok; exact absurd hok (by simp)
    | some k =>
      rw [htr] at hok
      exact ⟨k, rfl, forall_stored_of_forall_pairs hok⟩
  | getEntriesByAccount k => exact stepEquiv_getEntriesByAccount hc k g now

/-- Well-formed operation sequences keep the two backends in lock-step. -/
theorem runEquiv (st : LocalBackend.Store) (rs : Firestore.Store)
    (ops : List ScheduledOp) (hc : Coupled st rs) (hwf : seqOK st ops) :
    (runLocal st ops).1 = (runRemote rs ops).1 ∧
    Coupled (runLocal st ops).2 (runRemote rs ops).2 := by
  induction ops generalizing st rs with
  | nil => exact ⟨rfl, hc⟩
  | cons sop rest ih =>
    obtain ⟨op, g, now⟩ := sop
    rcases hwf with ⟨hok, hwf2⟩
    rcases stepEquiv hc (op, g, now) hok with ⟨ho, hc2⟩
    rcases ih _ _ hc2 hwf2 with ⟨hos, hcf⟩
    constructor
    · show (stepLocal st op g now).1 :: (runLocal (stepLocal st op g now).2 rest).1 =
        (stepRemote rs op g now).1 :: (runRemote (stepRemote rs op g now).2 rest).1
      rw [ho, hos]
    · show Coupled (runLocal (stepLocal st op g now).2 rest).2
        (runRemote (stepRemote rs op g now).2 rest).2
      exact hcf

/-- The two empty stores are coupled. -/
theorem coupled_empty : Coupled LocalBackend.emptyStore Firestore.emptyStore := by
  refine ⟨rfl, fun k => rfl, ⟨by simp [LocalBackend.emptyStore], ?_⟩, by
    simp [Firestore.emptyStore], fun k => by
    simp [LocalBackend.emptyStore, LocalBackend.getStoredEntries,
      LocalBackend.lookupBucket]⟩
  intro p hp
  simp [LocalBackend.emptyStore] at hp

/-! ## Helper lemmas: account update as seen through `find?` -/

theorem updateAccountList_found (l : List TradingAccount) (id : String)
    (a : TradingAccount) (u : UpdateTradingAccountInput) (now : Nat)
    (h : l.find? (fun b => b.id = id) = some a) :
    ∃ l', LocalBackend.updateAccountList l id u now = some l' ∧
      l'.find? (fun b => b.id = id) = some (applyAccountUpdate a u now) := by
  rcases find?_eq_some_decomp _ l a h with ⟨l₁, l₂, hl, hfalse⟩
  have ha : a.id = id := by simpa using List.find?_some h
  have h₁ : ∀ b ∈ l₁, b.id ≠ id := by
    intro b hb
    have := hfalse b hb
    simpa using this
  refine ⟨l₁ ++ applyAccountUpdate a u now :: l₂,
    hl ▸ LocalBackend.updateAccountList_append l₁ l₂ a id u now h₁ ha, ?_⟩
  apply find?_append_cons
  · intro b hb; simpa using h₁ b hb
  · simp [applyAccountUpdate, ha]

/-- A found `updateAccountLocal` succeeds, leaves the entry buckets alone,
and the stored account is the merged record. -/
theorem updateAccountLocal_found (st : LocalBackend.Store) (id : String)
    (a : TradingAccount) (u : UpdateTradingAccountInput) (now : Nat)
    (h : LocalBackend.getAccountByIdLocal st id = some a) :
    (LocalBackend.updateAccountLocal st id u now).1 = Except.ok () ∧
    (LocalBackend.updateAccountLocal st id u now).2.buckets = st.buckets ∧
    LocalBackend.getAccountByIdLocal (LocalBackend.updateAccountLocal st id u now).2 id =
      some (applyAccountUpdate a u now) := by
  rcases updateAccountList_found st.accounts id a u now h with ⟨l', hl', hfind⟩
  simp only [LocalBackend.updateAccountLocal, hl']
  exact ⟨by trivial, by trivial, hfind⟩

/-- A found remote `updateAccount` succeeds, leaves the entries collection
alone, and the stored account is the merged record. -/
theorem updateAccount_found (rs : Firestore.Store) (id : String)
    (a : TradingAccount) (u : UpdateTradingAccountInput) (now : Nat)
    (h : Firestore.getAccountById rs id = some a) :
    (Firestore.updateAccount rs id u now).1 = Except.ok () ∧
    (Firestore.updateAccount rs id u now).2.entries = rs.entries ∧
    Firestore.getAccountById (Firestore.updateAccount rs id u now).2 id =
      some (applyAccountUpdate a u now) := by
  rcases updateAccountList_found rs.accounts id a u now h with ⟨l', hl', hfind⟩
  simp only [Firestore.updateAccount, hl']
  exact ⟨by trivial, by trivial, hfind⟩

theorem currentBalance_applyAccountUpdate (a : TradingAccount) (b : Int) (now : Nat) :
    (applyAccountUpdate a (accountUpdateOfBalance b) now).currentBalance = b := rfl

/-! ## Claim C3 -/

/-- Claim C3: for every valid input (one whose `accountId` names an existing
account), `createEntry` persists a new entry carrying exactly the input's
fields and sets the owning account's `currentBalance` to `input.balance`, in
both the remote and the local variant; the written balance is `input.balance`
for every prior entry collection, so nothing is recomputed from the entry
list. -/
theorem claim3_createEntry_persists_and_propagates
    (input : CreateDailyEntryInput) (g : String) (now : Nat) :
    (∀ (rs : Firestore.Store) (a : TradingAccount),
      Firestore.getAccountById rs input.accountId = some a →
      (Firestore.createEntry rs input g now).1 = Except.ok g ∧
      (Firestore.createEntry rs input g now).2.entries = rs.entries ++
        [{ id := g, accountId := input.accountId, date := input.date,
           profitLoss := input.profitLoss, balance := input.balance,
           notes := input.notes, createdAt := now, updatedAt := now }] ∧
      Firestore.getAccountById (Firestore.createEntry rs input g now).2 input.accountId =
        some (applyAccountUpdate a (accountUpdateOfBalance input.balance) now) ∧
      (applyAccountUpdate a (accountUpdateOfBalance input.balance) now).currentBalance =
        input.balance) ∧
    (∀ (st : LocalBackend.Store) (a : TradingAccount),
      LocalBackend.getAccountByIdLocal st input.accountId = some a →
      (LocalBackend.createEntryLocal st input g now).1 = Except.ok g ∧
      LocalBackend.getStoredEntries (LocalBackend.createEntryLocal st input g now).2
          input.accountId =
        { id := g, accountId := input.accountId, date := input.date,
          profitLoss := input.profitLoss, balance := input.balance,
          notes := input.notes, createdAt := now, updatedAt := now } ::
          LocalBackend.getStoredEntries st input.accountId ∧
      LocalBackend.getAccountByIdLocal (LocalBackend.createEntryLocal st input g now).2
          input.accountId =
        some (applyAccountUpdate a (accountUpdateOfBalance input.balance) now) ∧
      (applyAccountUpdate a (accountUpdateOfBalance input.balance) now).currentBalance =
        input.balance) := by
  constructor
  · intro rs a hfind
    rcases updateAccountList_found rs.accounts input.accountId a
        (accountUpdateOfBalance input.balance) now hfind with ⟨l', hl', hfind'⟩
    simp only [Firestore.createEntry, Firestore.updateAccount, hl']
    exact ⟨by trivial, by trivial, hfind', by trivial⟩
  · intro st a hfind
    rcases updateAccountList_found st.accounts input.accountId a
        (accountUpdateOfBalance input.balance) now hfind with ⟨l', hl', hfind'⟩
    simp only [LocalBackend.createEntryLocal, LocalBackend.updateAccountLocal,
      LocalBackend.accounts_saveEntries, hl']
    refine ⟨by trivial, ?_, hfind', by trivial⟩
    simpa using LocalBackend.getStoredEntries_saveEntries_self st input.accountId _

/-- Claim C3 witness. -/
theorem claim3_witness :
    (Firestore.createEntry remoteOne
      { accountId := "A", date := 2, profitLoss := -30, balance := 1070,
        notes := none } "e2" 2).1 = Except.ok "e2" ∧
    Firestore.getAccountById (Firestore.createEntry remoteOne
      { accountId := "A", date := 2, profitLoss := -30, balance := 1070,
        notes := none } "e2" 2).2 "A" =
      some (applyAccountUpdate sampleAccount (accountUpdateOfBalance 1070) 2) := by
  have h := (claim3_createEntry_persists_and_propagates
    { accountId := "A", date := 2, profitLoss := -30, balance := 1070,
      notes := none } "e2" 2).1 remoteOne sampleAccount (by decide)
  exact ⟨h.1, h.2.2.1⟩

/-! ## Claim C5 -/

/-- Claim C5: `deleteEntry` removes exactly the named entry and nothing
else: in the remote variant the account collection is untouched and the
entries collection merely loses the documents with the id; in the local
variant the account list is untouched, the named account's bucket merely
loses the entries with the id, and every other bucket is untouched.  Any
recomputation of `currentBalance` can therefore only come from a separate
`updateAccount` call by the caller. -/
theorem claim5_deleteEntry_frame :
    (∀ (rs : Firestore.Store) (id : String),
      (Firestore.deleteEntry rs id).1 = Except.ok () ∧
      (Firestore.deleteEntry rs id).2.accounts = rs.accounts ∧
      (Firestore.deleteEntry rs id).2.entries =
        rs.entries.filter (fun e => e.id ≠ id)) ∧
    (∀ (st : LocalBackend.Store) (id accountId : String),
      (LocalBackend.deleteEntryLocal st id accountId).1 = Except.ok () ∧
      (LocalBackend.deleteEntryLocal st id accountId).2.accounts = st.accounts ∧
      (∀ j, LocalBackend.getStoredEntries
          (LocalBackend.deleteEntryLocal st id accountId).2 j =
        if j = accountId then
          (LocalBackend.getStoredEntries st j).filter (fun e => e.id ≠ id)
        else LocalBackend.getStoredEntries st j)) := by
  refine ⟨fun rs id => ⟨rfl, rfl, rfl⟩, fun st id accountId => ⟨rfl, rfl, ?_⟩⟩
  intro j
  by_cases hj : j = accountId
  · subst hj
    simp [LocalBackend.deleteEntryLocal,
      LocalBackend.getStoredEntries_saveEntries_self]
  · simp [LocalBackend.deleteEntryLocal, hj,
      LocalBackend.getStoredEntries_saveEntries_ne _ _ _ _ hj]

/-! ## Claim C9 -/

/-- Claim C9: `deleteAccount` never errors, in either variant, whatever the
store: in particular deleting an id that does not exist — or deleting the
same id a second time — completes without error, and afterwards the id
resolves to no account. -/
theorem claim9_deleteAccount_idempotent :
    (∀ (rs : Firestore.Store) (id : String),
      (Firestore.deleteAccount rs id).1 = Except.ok () ∧
      Firestore.getAccountById (Firestore.deleteAccount rs id).2 id = none ∧
      (Firestore.deleteAccount (Firestore.deleteAccount rs id).2 id).1 =
        Except.ok ()) ∧
    (∀ (st : LocalBackend.Store) (id : String),
      (LocalBackend.deleteAccountLocal st id).1 = Except.ok () ∧
      LocalBackend.getAccountByIdLocal (LocalBackend.deleteAccountLocal st id).2 id =
        none ∧
      (LocalBackend.deleteAccountLocal (LocalBackend.deleteAccountLocal st id).2 id).1 =
        Except.ok ()) := by
  constructor
  · intro rs id
    refine ⟨rfl, ?_, rfl⟩
    apply List.find?_eq_none.mpr
    intro a ha
    have := List.of_mem_filter ha
    simpa using this
  · intro st id
    refine ⟨rfl, ?_, rfl⟩
    apply List.find?_eq_none.mpr
    intro a ha
    have := List.of_mem_filter ha
    simpa using this

/-! ## Claim C10 -/

/-- Claim C10: deleting an entry id that is not among the given account's
entries completes without error and is observationally a no-op: the account
collection and every entry bucket (remote: the whole entries collection) are
unchanged. -/
theorem claim10_deleteEntry_missing_noop :
    (∀ (rs : Firestore.Store) (id : String),
      (∀ e ∈ rs.entries, e.id ≠ id) →
      (Firestore.deleteEntry rs id).1 = Except.ok () ∧
      (Firestore.deleteEntry rs id).2 = rs) ∧
    (∀ (st : LocalBackend.Store) (id accountId : String),
      (∀ e ∈ LocalBackend.getStoredEntries st accountId, e.id ≠ id) →
      (LocalBackend.deleteEntryLocal st id accountId).1 = Except.ok () ∧
      (LocalBackend.deleteEntryLocal st id accountId).2.accounts = st.accounts ∧
      ∀ j, LocalBackend.getStoredEntries
          (LocalBackend.deleteEntryLocal st id accountId).2 j =
        LocalBackend.getStoredEntries st j) := by
  constructor
  · intro rs id h
    refine ⟨rfl, ?_⟩
    cases rs with
    | mk accounts entries =>
      simp only [Firestore.deleteEntry]
      congr 1
      apply List.filter_eq_self.mpr
      intro e he
      simpa using h e he
  · intro st id accountId h
    refine ⟨rfl, rfl, ?_⟩
    intro j
    by_cases hj : j = accountId
    · subst hj
      simp only [LocalBackend.deleteEntryLocal]
      rw [LocalBackend.getStoredEntries_saveEntries_self]
      apply List.filter_eq_self.mpr
      intro e he
      simpa using h e he
    · simp only [LocalBackend.deleteEntryLocal]
      exact LocalBackend.getStoredEntries_saveEntries_ne _ _ _ _ hj

/-- Claim C10 witness: deleting the absent id `zz` from the one-entry
account `A` leaves everything in place. -/
theorem claim10_witness :
    (LocalBackend.deleteEntryLocal
      { accounts := [sampleAccount], buckets := [("A", [sampleEntry])] }
      "zz" "A").1 = Except.ok () ∧
    LocalBackend.getStoredEntries (LocalBackend.deleteEntryLocal
      { accounts := [sampleAccount], buckets := [("A", [sampleEntry])] }
      "zz" "A").2 "A" = [sampleEntry] := by
  have h := claim10_deleteEntry_missing_noop.2
    { accounts := [sampleAccount], buckets := [("A", [sampleEntry])] }
    "zz" "A" (by decide)
  exact ⟨h.1, (h.2.2 "A").trans (by decide)⟩

/-! ## Claim C8 -/

/-- Claim C8 counterexample: a failed medium read does not surface any
failure — `getStoredAccounts` and `getStoredEntries` return `[]` and the
remote `getAccountById` returns `null`, each indistinguishable from the
result on legitimately absent data, so the read operations silently return
an empty or null result in place of the failure. -/
theorem claim8_counterexample :
    getStoredAccountsFrom ReadAttempt.ioFailure = [] ∧
    getStoredAccountsFrom ReadAttempt.ioFailure =
      getStoredAccountsFrom (ReadAttempt.ok none) ∧
    getStoredEntriesFrom ReadAttempt.ioFailure = [] ∧
    getStoredEntriesFrom ReadAttempt.ioFailure =
      getStoredEntriesFrom (ReadAttempt.ok none) ∧
    getAccountByIdFrom DocReadAttempt.ioFailure = none ∧
    getAccountByIdFrom DocReadAttempt.ioFailure =
      getAccountByIdFrom DocReadAttempt.missing :=
  ⟨rfl, rfl, rfl, rfl, rfl, rfl⟩

/-- Claim C8 as amended: when the storage medium fails during a read, the
local read helpers catch the error and return the empty list and the remote
`getAccountById` catches it and returns `null`; no `StorageFailure` reaches
the caller of these reads (their result types carry no failure at all),
while a successful read returns the stored data unchanged. -/
theorem claim8_reads_swallow_failures :
    (∀ r : ReadAttempt (List TradingAccount),
      getStoredAccountsFrom r =
        match r with
        | ReadAttempt.ok (some l) => l
        | _ => []) ∧
    (∀ r : ReadAttempt (List DailyEntry),
      getStoredEntriesFrom r =
        match r with
        | ReadAttempt.ok (some l) => l
        | _ => []) ∧
    (∀ r : DocReadAttempt,
      getAccountByIdFrom r =
        match r with
        | DocReadAttempt.found a => some a
        | _ => none) := by
  refine ⟨fun r => ?_, fun r => ?_, fun r => ?_⟩
  · rcases r with v | _
    · rcases v with _ | l <;> rfl
    · rfl
  · rcases r with v | _
    · rcases v with _ | l <;> rfl
    · rfl
  · rcases r with a | _ | _ <;> rfl

/-- `findIdx?` finds the final element of a list when nothing before it
matches. -/
theorem findIdx?_append_singleton {α : Type} (p : α → Bool) (l : List α) (x : α)
    (h : ∀ e ∈ l, p e = false) (hx : p x = true) (i : Nat) :
    List.findIdx? p (l ++ [x]) i = some (i + l.length) := by
  induction l generalizing i with
  | nil => simp [List.findIdx?_cons, hx]
  | cons a as ih =>
    rw [List.cons_append, List.findIdx?_cons,
      if_neg (by simp [h a (List.mem_cons_self a as)]),
      ih (fun e he => h e (List.mem_cons_of_mem a he)) (i + 1)]
    congr 1
    simp only [List.length_cons]
    omega

/-! ## Claim C4 -/

/-- Claim C4 counterexample: a remote `updateEntry` whose `partialFields`
carry `balance` but no `accountId` persists the entry's new balance and
leaves the owning account's `currentBalance` untouched — the propagation is
skipped, unlike the local variant (whose facade rejects the same call), so
the claimed contract neither holds as stated nor holds identically in both
variants. -/
theorem claim4_counterexample :
    (Firestore.updateEntry remoteOne "e1"
      { balance := some 5 } 2).1 = Except.ok () ∧
    Firestore.getAccountById (Firestore.updateEntry remoteOne "e1"
      { balance := some 5 } 2).2 "A" = some sampleAccount ∧
    sampleAccount.currentBalance ≠ 5 ∧
    (Firestore.getEntriesByAccount (Firestore.updateEntry remoteOne "e1"
      { balance := some 5 } 2).2 "A").map DailyEntry.balance = [5] ∧
    (stepLocal { accounts := [sampleAccount], buckets := [("A", [sampleEntry])] }
      (Op.updateEntry "e1" { balance := some 5 }) "" 2).1 =
      Except.error ApiError.validation := by
  decide

/-- Claim C4 as amended: `updateEntry` propagates `partialFields.balance`
into an account's `currentBalance` only when an `accountId` accompanies it.
Remote variant: with balance present and a truthy `partialFields.accountId`
naming an existing account, that account's `currentBalance` is set to the
balance; with balance present but no truthy `accountId` the account
collection is untouched (no error).  Local variant: the facade rejects any
update without a truthy `partialFields.accountId`; with one, a present
balance is propagated into that account.  In both variants an update without
`balance` (for example an edit of notes only) leaves the account records
completely untouched. -/
theorem claim4_updateEntry_balance_contract :
    (∀ (rs : Firestore.Store) (id : String) (u : UpdateDailyEntryInput)
        (now : Nat) (b : Int) (k : String) (a : TradingAccount),
      u.balance = some b → truthyId u.accountId = some k →
      (∃ e ∈ rs.entries, e.id = id) → Firestore.getAccountById rs k = some a →
      (Firestore.updateEntry rs id u now).1 = Except.ok () ∧
      Firestore.getAccountById (Firestore.updateEntry rs id u now).2 k =
        some (applyAccountUpdate a (accountUpdateOfBalance b) now) ∧
      (applyAccountUpdate a (accountUpdateOfBalance b) now).currentBalance = b) ∧
    (∀ (rs : Firestore.Store) (id : String) (u : UpdateDailyEntryInput) (now : Nat),
      truthyId u.accountId = none →
      (Firestore.updateEntry rs id u now).2.accounts = rs.accounts) ∧
    (∀ (rs : Firestore.Store) (id : String) (u : UpdateDailyEntryInput) (now : Nat),
      u.balance = none →
      (Firestore.updateEntry rs id u now).2.accounts = rs.accounts) ∧
    (∀ (st : LocalBackend.Store) (id : String) (u : UpdateDailyEntryInput)
        (g : String) (now : Nat),
      truthyId u.accountId = none →
      stepLocal st (Op.updateEntry id u) g now = (Except.error ApiError.validation, st)) ∧
    (∀ (st : LocalBackend.Store) (id k : String) (u : UpdateDailyEntryInput)
        (now : Nat) (b : Int) (a : TradingAccount),
      u.balance = some b →
      (∃ e ∈ LocalBackend.getStoredEntries st k, e.id = id) →
      LocalBackend.getAccountByIdLocal st k = some a →
      (LocalBackend.updateEntryLocal st id k u now).1 = Except.ok () ∧
      LocalBackend.getAccountByIdLocal (LocalBackend.updateEntryLocal st id k u now).2 k =
        some (applyAccountUpdate a (accountUpdateOfBalance b) now)) ∧
    (∀ (st : LocalBackend.Store) (id k : String) (u : UpdateDailyEntryInput)
        (now : Nat),
      u.balance = none →
      (LocalBackend.updateEntryLocal st id k u now).2.accounts = st.accounts) := by
  refine ⟨?_, ?_, ?_, ?_, ?_, ?_⟩
  · intro rs id u now b k a hb htr hentry hacc
    cases hul : LocalBackend.updateEntryList rs.entries id u now with
    | none =>
      rcases hentry with ⟨e, he, hid⟩
      exact absurd hid ((LocalBackend.updateEntryList_eq_none_iff _ _ _ _).mp hul e he)
    | some es =>
      rcases updateAccountList_found rs.accounts k a
          (accountUpdateOfBalance b) now hacc with ⟨l', hl', hfind⟩
      simp only [Firestore.updateEntry, hul, hb, htr, Firestore.updateAccount, hl']
      exact ⟨by trivial, hfind, rfl⟩
  · intro rs id u now htr
    cases hul : LocalBackend.updateEntryList rs.entries id u now with
    | none => simp [Firestore.updateEntry, hul]
    | some es =>
      cases hb : u.balance with
      | none => simp [Firestore.updateEntry, hul, hb, htr]
      | some b => simp [Firestore.updateEntry, hul, hb, htr]
  · intro rs id u now hb
    cases hul : LocalBackend.updateEntryList rs.entries id u now with
    | none => simp [Firestore.updateEntry, hul]
    | some es =>
      cases htr : truthyId u.accountId with
      | none => simp [Firestore.updateEntry, hul, hb, htr]
      | some k => simp [Firestore.updateEntry, hul, hb, htr]
  · intro st id u g now htr
    simp [stepLocal, htr]
  · intro st id k u now b a hb hentry hacc
    cases hul : LocalBackend.updateEntryList (LocalBackend.getStoredEntries st k) id u now with
    | none =>
      rcases hentry with ⟨e, he, hid⟩
      exact absurd hid ((LocalBackend.updateEntryList_eq_none_iff _ _ _ _).mp hul e he)
    | some es =>
      rcases updateAccountList_found st.accounts k a
          (accountUpdateOfBalance b) now hacc with ⟨l', hl', hfind⟩
      simp only [LocalBackend.updateEntryLocal, hul, hb,
        LocalBackend.updateAccountLocal, LocalBackend.accounts_saveEntries, hl']
      exact ⟨by trivial, hfind⟩
  · intro st id k u now hb
    cases hul : LocalBackend.updateEntryList (LocalBackend.getStoredEntries st k) id u now with
    | none => simp [LocalBackend.updateEntryLocal, hul]
    | some es => simp [LocalBackend.updateEntryLocal, hul, hb,
        LocalBackend.accounts_saveEntries]

/-- Claim C4 witness: on the one-entry fixture, a local update carrying
`balance = 1200` with `accountId = A` propagates `1200` into the account. -/
theorem claim4_witness :
    (LocalBackend.updateEntryLocal
      { accounts := [sampleAccount], buckets := [("A", [sampleEntry])] }
      "e1" "A" { accountId := some "A", balance := some 1200 } 3).1 =
      Except.ok () ∧
    LocalBackend.getAccountByIdLocal (LocalBackend.updateEntryLocal
      { accounts := [sampleAccount], buckets := [("A", [sampleEntry])] }
      "e1" "A" { accountId := some "A", balance := some 1200 } 3).2 "A" =
      some (applyAccountUpdate sampleAccount (accountUpdateOfBalance 1200) 3) := by
  have h := claim4_updateEntry_balance_contract.2.2.2.2.1
    { accounts := [sampleAccount], buckets := [("A", [sampleEntry])] }
    "e1" "A" { accountId := some "A", balance := some 1200 } 3 1200 sampleAccount
    rfl ⟨sampleEntry, by decide, rfl⟩ (by decide)
  exact ⟨h.1, h.2⟩

/-! ## Claim C2 -/

/-- Claim C2 counterexample: on the §8 fixture (initial balance `1000`,
entries `[100, -30, 50]`, balances `[1100, 1070, 1120]`, current balance
`1120`), editing the profit/loss of the oldest entry `e1` to `200` through
the update protocol changes the account's `currentBalance` from `1120` to
`1200`, while the head entry still stores `1120` — the claim says the
`currentBalance` is left unchanged. -/
theorem claim2_counterexample :
    (LocalBackend.getEntriesByAccountLocal threeStore "A").length = 3 ∧
    ((LocalBackend.getEntriesByAccountLocal threeStore "A").getLast?.map
      DailyEntry.id) = some "e1" ∧
    (LocalBackend.getAccountByIdLocal threeStore "A").map
      TradingAccount.currentBalance = some 1120 ∧
    (uiUpdateEntry threeStore sampleAccount "e1" 200 none 4).1 =
      Except.ok Ret.done ∧
    (LocalBackend.getAccountByIdLocal
        (uiUpdateEntry threeStore sampleAccount "e1" 200 none 4).2 "A").map
      TradingAccount.currentBalance = some 1200 ∧
    ((LocalBackend.getEntriesByAccountLocal
        (uiUpdateEntry threeStore sampleAccount "e1" 200 none 4).2 "A").head?.map
      DailyEntry.balance) = some 1120 ∧
    (1200 : Int) ≠ 1120 := by
  decide

/-- Claim C2 as amended: on an account with at least three entries whose
oldest entry is `tgt` (stored as `b₁ ++ tgt :: b₂`, uniquely identified by
its id), editing `tgt`'s profit/loss to `pl` through the update protocol
rewrites only `tgt`'s stored record — its balance becomes
`initialBalance + pl`, every other stored entry is unchanged — but, contrary
to the original claim, it also sets the account's `currentBalance` to that
same `initialBalance + pl`. -/
theorem claim2_update_oldest_entry (st : LocalBackend.Store)
    (acc : TradingAccount) (a : TradingAccount) (tgt : DailyEntry)
    (es₀ b₁ b₂ : List DailyEntry) (pl : Int) (notes : Option String) (now : Nat)
    (hes : LocalBackend.getEntriesByAccountLocal st acc.id = es₀ ++ [tgt])
    (hlen : 2 ≤ es₀.length)
    (hids₀ : ∀ e ∈ es₀, e.id ≠ tgt.id)
    (hbucket : LocalBackend.getStoredEntries st acc.id = b₁ ++ tgt :: b₂)
    (hids₁ : ∀ e ∈ b₁, e.id ≠ tgt.id)
    (hacc : LocalBackend.getAccountByIdLocal st acc.id = some a)
    (hk : acc.id ≠ "") :
    (uiUpdateEntry st acc tgt.id pl notes now).1 = Except.ok Ret.done ∧
    LocalBackend.getStoredEntries (uiUpdateEntry st acc tgt.id pl notes now).2 acc.id =
      b₁ ++ applyEntryUpdate tgt
        { accountId := some acc.id, profitLoss := some pl,
          balance := some (acc.initialBalance + pl), notes := some notes } now :: b₂ ∧
    (applyEntryUpdate tgt
        { accountId := some acc.id, profitLoss := some pl,
          balance := some (acc.initialBalance + pl), notes := some notes } now).balance =
      acc.initialBalance + pl ∧
    LocalBackend.getAccountByIdLocal (uiUpdateEntry st acc tgt.id pl notes now).2 acc.id =
      some (applyAccountUpdate a
        (accountUpdateOfBalance (acc.initialBalance + pl)) now) ∧
    (applyAccountUpdate a
        (accountUpdateOfBalance (acc.initialBalance + pl)) now).currentBalance =
      acc.initialBalance + pl := by
  have hfind : (LocalBackend.getEntriesByAccountLocal st acc.id).findIdx?
      (fun e => e.id = tgt.id) = some es₀.length := by
    rw [hes]
    have := findIdx?_append_singleton (fun e => decide (e.id = tgt.id)) es₀ tgt
      (fun e he => by simp [hids₀ e he]) (by simp) 0
    simpa using this
  have hget : (LocalBackend.getEntriesByAccountLocal st acc.id).get?
      (es₀.length + 1) = none := by
    apply List.get?_eq_none.mpr
    rw [hes]
    simp
  have htr : truthyId (some acc.id) = some acc.id := by
    simp [truthyId, hk]
  have hul : LocalBackend.updateEntryList (LocalBackend.getStoredEntries st acc.id)
      tgt.id
      { accountId := some acc.id, profitLoss := some pl,
        balance := some (acc.initialBalance + pl), notes := some notes } now =
      some (b₁ ++ applyEntryUpdate tgt
        { accountId := some acc.id, profitLoss := some pl,
          balance := some (acc.initialBalance + pl), notes := some notes } now :: b₂) := by
    rw [hbucket]
    exact LocalBackend.updateEntryList_append b₁ b₂ tgt tgt.id _ now hids₁ rfl
  rcases updateAccountList_found st.accounts acc.id a
      (accountUpdateOfBalance (acc.initialBalance + pl)) now hacc with ⟨l', hl', hfind'⟩
  simp only [uiUpdateEntry, hfind, hget, stepLocal, htr, LocalBackend.updateEntryLocal,
    hul, LocalBackend.updateAccountLocal, LocalBackend.accounts_saveEntries, hl']
  refine ⟨by trivial, ?_, by trivial, hfind', by trivial⟩
  exact LocalBackend.getStoredEntries_saveEntries_self st acc.id _

/-- Claim C2 witness: the amended theorem applied to the §8 three-entry
fixture. -/
theorem claim2_witness :
    (uiUpdateEntry threeStore sampleAccount "e1" 200 none 4).1 =
      Except.ok Ret.done ∧
    LocalBackend.getAccountByIdLocal
        (uiUpdateEntry threeStore sampleAccount "e1" 200 none 4).2 "A" =
      some (applyAccountUpdate
        { id := "A", name := "Main", initialBalance := 1000,
          currentBalance := 1120, currency := "USD", createdAt := 0,
          updatedAt := 3 }
        (accountUpdateOfBalance 1200) 4) := by
  have h := claim2_update_oldest_entry threeStore sampleAccount
    { id := "A", name := "Main", initialBalance := 1000, currentBalance := 1120,
      currency := "USD", createdAt := 0, updatedAt := 3 }
    { id := "e1", accountId := "A", date := 1, profitLoss := 100, balance := 1100,
      notes := none, createdAt := 1, updatedAt := 1 }
    [{ id := "e3", accountId := "A", date := 3, profitLoss := 50, balance := 1120,
       notes := none, createdAt := 3, updatedAt := 3 },
     { id := "e2", accountId := "A", date := 2, profitLoss := -30, balance := 1070,
       notes := none, createdAt := 2, updatedAt := 2 }]
    [{ id := "e3", accountId := "A", date := 3, profitLoss := 50, balance := 1120,
       notes := none, createdAt := 3, updatedAt := 3 },
     { id := "e2", accountId := "A", date := 2, profitLoss := -30, balance := 1070,
       notes := none, createdAt := 2, updatedAt := 2 }]
    [] 200 none 4
    (by decide) (by decide) (by decide) (by decide) (by decide) (by decide)
    (by decide)
  exact ⟨h.1, h.2.2.2.1⟩

/-! ## Claim C1: preservation of the balance invariant, one protocol event
at a time -/

theorem balanceInvariant_elim {st : LocalBackend.Store} {acc : TradingAccount}
    (h : balanceInvariant st acc) :
    ∃ a, LocalBackend.getAccountByIdLocal st acc.id = some a ∧
      a.currentBalance = headOrInit st acc := by
  unfold balanceInvariant at h
  cases hfa : LocalBackend.getAccountByIdLocal st acc.id with
  | none => rw [hfa] at h; simp at h
  | some a =>
    rw [hfa] at h
    exact ⟨a, rfl, by simpa using h⟩

theorem balanceInvariant_intro {st : LocalBackend.Store} {acc : TradingAccount}
    {a : TradingAccount}
    (hfa : LocalBackend.getAccountByIdLocal st acc.id = some a)
    (hcb : a.currentBalance = headOrInit st acc) : balanceInvariant st acc := by
  unfold balanceInvariant
  rw [hfa]
  simp [hcb]

/-- A protocol-correct create (fresh id, strictly newest date) preserves the
bookkeeping invariant. -/
theorem uiCreateEntry_protoGood (st : LocalBackend.Store) (acc : TradingAccount)
    (pl : Int) (date : Nat) (notes : Option String) (g : String) (now : Nat)
    (hgood : protoGood st acc)
    (hdate : ∀ e ∈ LocalBackend.getStoredEntries st acc.id, e.date < date)
    (hfresh : ∀ e ∈ LocalBackend.getStoredEntries st acc.id, e.id ≠ g) :
    protoGood (uiCreateEntry st acc pl date notes g now).2 acc := by
  rcases hgood with ⟨hinv, hidnd, hdatend⟩
  rcases balanceInvariant_elim hinv with ⟨a, hfa, _⟩
  rcases updateAccountList_found st.accounts acc.id a
      (accountUpdateOfBalance (headOrInit st acc + pl)) now hfa with ⟨l', hl', hfind'⟩
  have hbucket : LocalBackend.getStoredEntries
      (uiCreateEntry st acc pl date notes g now).2 acc.id =
      { id := g, accountId := acc.id, date := date, profitLoss := pl,
        balance := headOrInit st acc + pl, notes := notes,
        createdAt := now, updatedAt := now } ::
        LocalBackend.getStoredEntries st acc.id := by
    simp only [uiCreateEntry, stepLocal, LocalBackend.createEntryLocal,
      LocalBackend.updateAccountLocal, LocalBackend.accounts_saveEntries, hl']
    exact LocalBackend.getStoredEntries_saveEntries_self st acc.id _
  have haccount : LocalBackend.getAccountByIdLocal
      (uiCreateEntry st acc pl date notes g now).2 acc.id =
      some (applyAccountUpdate a
        (accountUpdateOfBalance (headOrInit st acc + pl)) now) := by
    simp only [uiCreateEntry, stepLocal, LocalBackend.createEntryLocal,
      LocalBackend.updateAccountLocal, LocalBackend.accounts_saveEntries, hl']
    exact hfind'
  have hhead : headOrInit (uiCreateEntry st acc pl date notes g now).2 acc =
      headOrInit st acc + pl := by
    unfold headOrInit LocalBackend.getEntriesByAccountLocal
    rw [hbucket, sortByDateDesc_cons_of_gt _ _ hdate]
    rfl
  refine ⟨balanceInvariant_intro haccount (by rw [hhead]; rfl), ?_, ?_⟩
  · rw [hbucket]
    simp only [List.map_cons, List.nodup_cons]
    refine ⟨?_, hidnd⟩
    intro hmem
    rcases List.mem_map.mp hmem with ⟨e, he, hee⟩
    exact hfresh e he hee
  · rw [hbucket]
    simp only [List.map_cons, List.nodup_cons]
    refine ⟨?_, hdatend⟩
    intro hmem
    rcases List.mem_map.mp hmem with ⟨e, he, hee⟩
    exact absurd hee (Nat.ne_of_lt (hdate e he))

/-- Updating the head entry with any supplied balance writes that balance
both into the head entry and into the account, preserving the bookkeeping
invariant. -/
theorem updateHead_protoGood_aux (st : LocalBackend.Store) (acc : TradingAccount)
    (h : DailyEntry) (t : List DailyEntry) (b : Int) (u : UpdateDailyEntryInput)
    (g : String) (now : Nat)
    (hk : acc.id ≠ "")
    (hua : u.accountId = some acc.id)
    (hud : u.date = none)
    (hub : u.balance = some b)
    (hgood : protoGood st acc)
    (hes : LocalBackend.getEntriesByAccountLocal st acc.id = h :: t) :
    protoGood (stepLocal st (Op.updateEntry h.id u) g now).2 acc := by
  rcases hgood with ⟨hinv, hidnd, hdatend⟩
  rcases balanceInvariant_elim hinv with ⟨a, hfa, _⟩
  have hmem : h ∈ LocalBackend.getStoredEntries st acc.id := by
    apply mem_sortByDateDesc.mp
    show h ∈ LocalBackend.getEntriesByAccountLocal st acc.id
    rw [hes]
    exact List.mem_cons_self h t
  rcases exists_decomp_of_mem_nodup_ids _ h hidnd hmem with ⟨b₁, b₂, hbd, hids₁, hids₂⟩
  have htr : truthyId u.accountId = some acc.id := by
    rw [hua]
    simp [truthyId, hk]
  have hul : LocalBackend.updateEntryList (LocalBackend.getStoredEntries st acc.id)
      h.id u now = some (b₁ ++ applyEntryUpdate h u now :: b₂) := by
    rw [hbd]
    exact LocalBackend.updateEntryList_append b₁ b₂ h h.id u now hids₁ rfl
  rcases updateAccountList_found st.accounts acc.id a
      (accountUpdateOfBalance b) now hfa with ⟨l', hl', hfind'⟩
  have hbucket2 : LocalBackend.getStoredEntries
      (stepLocal st (Op.updateEntry h.id u) g now).2 acc.id =
      b₁ ++ applyEntryUpdate h u now :: b₂ := by
    simp only [stepLocal, htr, LocalBackend.updateEntryLocal, hul, hub,
      LocalBackend.updateAccountLocal, LocalBackend.accounts_saveEntries, hl']
    exact LocalBackend.getStoredEntries_saveEntries_self st acc.id _
  have haccount : LocalBackend.getAccountByIdLocal
      (stepLocal st (Op.updateEntry h.id u) g now).2 acc.id =
      some (applyAccountUpdate a (accountUpdateOfBalance b) now) := by
    simp only [stepLocal, htr, LocalBackend.updateEntryLocal, hul, hub,
      LocalBackend.updateAccountLocal, LocalBackend.accounts_saveEntries, hl']
    exact hfind'
  have hmd : (applyEntryUpdate h u now).date = h.date := by
    simp [applyEntryUpdate, hud]
  have hmb : (applyEntryUpdate h u now).balance = b := by
    simp [applyEntryUpdate, hub]
  have hids_eq : (b₁ ++ applyEntryUpdate h u now :: b₂).map DailyEntry.id =
      (LocalBackend.getStoredEntries st acc.id).map DailyEntry.id := by
    rw [hbd]
    simp [applyEntryUpdate]
  have hdates_eq : (b₁ ++ applyEntryUpdate h u now :: b₂).map DailyEntry.date =
      (LocalBackend.getStoredEntries st acc.id).map DailyEntry.date := by
    rw [hbd]
    simp [hmd]
  have hsorted : (LocalBackend.getEntriesByAccountLocal st acc.id).Pairwise
      (fun x y => y.date ≤ x.date) := sorted_sortByDateDesc _
  rw [hes] at hsorted
  rcases List.pairwise_cons.mp hsorted with ⟨hht, _⟩
  have hdle : ∀ e ∈ LocalBackend.getStoredEntries st acc.id, e.date ≤ h.date := by
    intro e he
    have : e ∈ LocalBackend.getEntriesByAccountLocal st acc.id :=
      mem_sortByDateDesc.mpr he
    rw [hes] at this
    rcases List.mem_cons.mp this with h1 | h1
    · rw [h1]
    · exact hht e h1
  have hmax : ∀ e ∈ b₁ ++ applyEntryUpdate h u now :: b₂,
      e.date ≤ (applyEntryUpdate h u now).date := by
    rw [hmd]
    intro e he
    rcases List.mem_append.mp he with h1 | h1
    · exact hdle e (hbd ▸ List.mem_append_left _ h1)
    · rcases List.mem_cons.mp h1 with h2 | h2
      · rw [h2, hmd]
      · exact hdle e (hbd ▸ List.mem_append_right _ (List.mem_cons_of_mem h h2))
  have hnd2 : ((b₁ ++ applyEntryUpdate h u now :: b₂).map DailyEntry.date).Nodup :=
    hdates_eq ▸ hdatend
  have hhead2 : (sortByDateDesc (b₁ ++ applyEntryUpdate h u now :: b₂)).head? =
      some (applyEntryUpdate h u now) :=
    head?_sortByDateDesc_of_max _ _ (by simp) hmax hnd2
  refine ⟨balanceInvariant_intro haccount ?_, ?_, ?_⟩
  · unfold headOrInit LocalBackend.getEntriesByAccountLocal
    rw [hbucket2]
    cases hs : sortByDateDesc (b₁ ++ applyEntryUpdate h u now :: b₂) with
    | nil => rw [hs] at hhead2; simp at hhead2
    | cons y ys =>
      rw [hs] at hhead2
      have hy : y = applyEntryUpdate h u now := by simpa using hhead2
      rw [hy]
      show (applyAccountUpdate a (accountUpdateOfBalance b) now).currentBalance =
        (applyEntryUpdate h u now).balance
      rw [hmb]
      rfl
  · rw [hbucket2, hids_eq]
    exact hidnd
  · rw [hbucket2, hdates_eq]
    exact hdatend

/-- A protocol-correct update — one that targets the head entry — preserves
the bookkeeping invariant. -/
theorem uiUpdateEntry_protoGood (st : LocalBackend.Store) (acc : TradingAccount)
    (entryId : String) (pl : Int) (notes : Option String) (now : Nat)
    (hk : acc.id ≠ "")
    (hgood : protoGood st acc)
    (hhead : (LocalBackend.getEntriesByAccountLocal st acc.id).head?.map
      DailyEntry.id = some entryId) :
    protoGood (uiUpdateEntry st acc entryId pl notes now).2 acc := by
  cases hes : LocalBackend.getEntriesByAccountLocal st acc.id with
  | nil => rw [hes] at hhead; simp at hhead
  | cons h t =>
    rw [hes] at hhead
    have hid : h.id = entryId := by simpa using hhead
    subst hid
    have hfi : (LocalBackend.getEntriesByAccountLocal st acc.id).findIdx?
        (fun e => e.id = h.id) = some 0 := by
      rw [hes, List.findIdx?_cons, if_pos (by simp)]
    have hred : uiUpdateEntry st acc h.id pl notes now =
        stepLocal st (Op.updateEntry h.id
          { accountId := some acc.id, profitLoss := some pl,
            balance := some ((match (LocalBackend.getEntriesByAccountLocal st
                acc.id).get? (0 + 1) with
              | some p => p.balance
              | none => acc.initialBalance) + pl),
            notes := some notes }) "" now := by
      simp only [uiUpdateEntry, hfi]
    rw [hred]
    exact updateHead_protoGood_aux st acc h t _ _ "" now hk rfl rfl rfl hgood hes

theorem getStoredEntries_of_buckets_eq {st st' : LocalBackend.Store}
    (h : st'.buckets = st.buckets) (k : String) :
    LocalBackend.getStoredEntries st' k = LocalBackend.getStoredEntries st k := by
  unfold LocalBackend.getStoredEntries
  rw [h]

theorem headOrInit_of_buckets_eq {st st' : LocalBackend.Store}
    (h : st'.buckets = st.buckets) (acc : TradingAccount) :
    headOrInit st' acc = headOrInit st acc := by
  unfold headOrInit LocalBackend.getEntriesByAccountLocal LocalBackend.getStoredEntries
  rw [h]

theorem stepLocal_updateAccount_found (st : LocalBackend.Store)
    (acc : TradingAccount) (a : TradingAccount) (u : UpdateTradingAccountInput)
    (g : String) (now : Nat)
    (hfa : LocalBackend.getAccountByIdLocal st acc.id = some a) :
    (stepLocal st (Op.updateAccount acc.id u) g now).1 = Except.ok Ret.done ∧
    (stepLocal st (Op.updateAccount acc.id u) g now).2.buckets = st.buckets ∧
    LocalBackend.getAccountByIdLocal
        (stepLocal st (Op.updateAccount acc.id u) g now).2 acc.id =
      some (applyAccountUpdate a u now) := by
  rcases updateAccountLocal_found st acc.id a u now hfa with ⟨h1, h2, h3⟩
  cases hua : LocalBackend.updateAccountLocal st acc.id u now with
  | mk r st2 =>
    rw [hua] at h1 h2 h3
    simp only [stepLocal, hua]
    cases r with
    | ok v => exact ⟨rfl, h2, h3⟩
    | error e => exact absurd h1 (by simp)

/-- A protocol delete — removal followed by the mandated recomputation of
`currentBalance` from the new head of the remaining entries — preserves the
bookkeeping invariant. -/
theorem uiDeleteEntry_protoGood (st : LocalBackend.Store) (acc : TradingAccount)
    (entryId : String) (now : Nat)
    (hk : acc.id ≠ "")
    (hgood : protoGood st acc) :
    protoGood (uiDeleteEntry st acc entryId now).2 acc := by
  rcases hgood with ⟨hinv, hidnd, hdatend⟩
  rcases balanceInvariant_elim hinv with ⟨a, hfa, _⟩
  have htr : truthyId (some acc.id) = some acc.id := by
    simp [truthyId, hk]
  have hred : uiDeleteEntry st acc entryId now =
      stepLocal (LocalBackend.saveEntries st acc.id
          ((LocalBackend.getStoredEntries st acc.id).filter (fun e => e.id ≠ entryId)))
        (Op.updateAccount acc.id (accountUpdateOfBalance
          (headOrInit (LocalBackend.saveEntries st acc.id
            ((LocalBackend.getStoredEntries st acc.id).filter
              (fun e => e.id ≠ entryId))) acc))) "" now := by
    simp only [uiDeleteEntry, stepLocal, htr, LocalBackend.deleteEntryLocal]
    rfl
  have hfa1 : LocalBackend.getAccountByIdLocal (LocalBackend.saveEntries st acc.id
      ((LocalBackend.getStoredEntries st acc.id).filter (fun e => e.id ≠ entryId)))
      acc.id = some a := hfa
  rcases stepLocal_updateAccount_found _ acc a
    (accountUpdateOfBalance (headOrInit (LocalBackend.saveEntries st acc.id
      ((LocalBackend.getStoredEntries st acc.id).filter (fun e => e.id ≠ entryId))) acc))
    "" now hfa1 with ⟨_, hbk, hacc2⟩
  rw [hred]
  have hbucket2 := getStoredEntries_of_buckets_eq hbk acc.id
  rw [LocalBackend.getStoredEntries_saveEntries_self] at hbucket2
  refine ⟨balanceInvariant_intro hacc2 ?_, ?_, ?_⟩
  · rw [currentBalance_applyAccountUpdate, headOrInit_of_buckets_eq hbk acc]
  · rw [hbucket2]
    exact List.Nodup.sublist (List.Sublist.map _ (List.filter_sublist _)) hidnd
  · rw [hbucket2]
    exact List.Nodup.sublist (List.Sublist.map _ (List.filter_sublist _)) hdatend

theorem protoGood_runProto (st : LocalBackend.Store) (acc : TradingAccount)
    (ops : List (ProtoOp × Nat)) (hk : acc.id ≠ "")
    (hgood : protoGood st acc) (hwf : protoWF st acc ops) :
    protoGood (runProto st acc ops) acc := by
  induction ops generalizing st with
  | nil => exact hgood
  | cons p rest ih =>
    cases p with
    | mk op now =>
      rcases hwf with ⟨hok, hwf2⟩
      cases op with
      | create pl date notes g =>
        exact ih _ (uiCreateEntry_protoGood st acc pl date notes g now hgood
          hok.1 hok.2) hwf2
      | update entryId pl notes =>
        exact ih _ (uiUpdateEntry_protoGood st acc entryId pl notes now hk hgood
          hok) hwf2
      | delete entryId =>
        exact ih _ (uiDeleteEntry_protoGood st acc entryId now hk hgood) hwf2

/-- Claim C1 counterexample: the Dashboard-screen events themselves are the
§4.3 protocol — each create computes its balance from the current head, each
update recomputes the edited entry's balance from its chronological
predecessor, each delete recomputes the account balance from the new head.
After the three §8 creates the invariant holds, but one further
protocol-conformant update of the oldest (non-head) entry breaks it: the
handlers propagate the edited entry's recomputed balance (1200) into
`currentBalance` although the head entry still stores 1120. -/
theorem claim1_counterexample :
    balanceInvariant threeStore sampleAccount ∧
    ¬ balanceInvariant (runProto startStore sampleAccount
        (threeCreates ++ [(ProtoOp.update "e1" 200 none, 4)])) sampleAccount := by
  decide

/-- Claim C1 as amended: for an account whose state satisfies the
bookkeeping invariant (in particular a freshly created account with no
entries), after any sequence of Dashboard-screen create, update and delete
events in which creates carry fresh ids and strictly increasing dates and
every update targets the chronologically most recent entry, the account's
`currentBalance` equals the `balance` of the chronologically most recent
entry, or `initialBalance` if the account has no entries.  (The original
claim, quantifying over updates of arbitrary entries, is refuted by the
counterexample.) -/
theorem claim1_balance_invariant (st : LocalBackend.Store) (acc : TradingAccount)
    (ops : List (ProtoOp × Nat)) (hk : acc.id ≠ "")
    (hgood : protoGood st acc) (hwf : protoWF st acc ops) :
    balanceInvariant (runProto st acc ops) acc :=
  (protoGood_runProto st acc ops hk hgood hwf).1

/-! ## Claim C7 -/

/-- Claim C7: `deleteAccount` removes the account record and every entry of
the account, in both variants, and a subsequent `getEntriesByAccount` for
the id returns the empty sequence.  The remote variant holds for every
store; the local variant holds for every well-formed key-value layout
(distinct entries keys, each entry stored under its own account's key). -/
theorem claim7_deleteAccount_cascade :
    (∀ (rs : Firestore.Store) (id : String),
      (Firestore.deleteAccount rs id).1 = Except.ok () ∧
      Firestore.getAccountById (Firestore.deleteAccount rs id).2 id = none ∧
      (∀ e ∈ (Firestore.deleteAccount rs id).2.entries, e.accountId ≠ id) ∧
      Firestore.getEntriesByAccount (Firestore.deleteAccount rs id).2 id = []) ∧
    (∀ (st : LocalBackend.Store) (id : String),
      bucketKeysOK st →
      (LocalBackend.deleteAccountLocal st id).1 = Except.ok () ∧
      LocalBackend.getAccountByIdLocal (LocalBackend.deleteAccountLocal st id).2 id =
        none ∧
      (∀ k, ∀ e ∈ LocalBackend.getStoredEntries
          (LocalBackend.deleteAccountLocal st id).2 k, e.accountId ≠ id) ∧
      LocalBackend.getEntriesByAccountLocal (LocalBackend.deleteAccountLocal st id).2 id =
        []) := by
  constructor
  · intro rs id
    refine ⟨rfl, ?_, ?_, ?_⟩
    · apply List.find?_eq_none.mpr
      intro a ha
      simpa using List.of_mem_filter ha
    · intro e he
      simpa using List.of_mem_filter he
    · show sortByDateDesc _ = []
      have : ((Firestore.deleteAccount rs id).2.entries).filter
          (fun e => e.accountId = id) = [] := by
        apply List.filter_eq_nil_iff.mpr
        intro e he
        simpa using List.of_mem_filter he
      rw [this]
      rfl
  · intro st id hwf
    rcases hwf with ⟨hkeys, hcons⟩
    have hself : LocalBackend.getStoredEntries
        (LocalBackend.deleteAccountLocal st id).2 id = [] := by
      show (LocalBackend.lookupBucket (LocalBackend.removeBucket st.buckets id) id).getD
        [] = []
      rw [LocalBackend.lookupBucket_removeBucket_self st.buckets id hkeys]
      rfl
    refine ⟨rfl, ?_, ?_, ?_⟩
    · apply List.find?_eq_none.mpr
      intro a ha
      simpa using List.of_mem_filter ha
    · intro k e he
      by_cases hk : k = id
      · rw [hk, hself] at he
        simp at he
      · have hlook : LocalBackend.lookupBucket (LocalBackend.removeBucket st.buckets id)
            k = some (LocalBackend.getStoredEntries
              (LocalBackend.deleteAccountLocal st id).2 k) := by
          show LocalBackend.lookupBucket (LocalBackend.removeBucket st.buckets id) k =
            some ((LocalBackend.lookupBucket (LocalBackend.removeBucket st.buckets id)
              k).getD [])
          cases hl : LocalBackend.lookupBucket (LocalBackend.removeBucket st.buckets id) k
            with
          | none =>
            exfalso
            have : LocalBackend.getStoredEntries
                (LocalBackend.deleteAccountLocal st id).2 k = [] := by
              show (LocalBackend.lookupBucket
                (LocalBackend.removeBucket st.buckets id) k).getD [] = []
              rw [hl]
              rfl
            rw [this] at he
            simp at he
          | some es => rfl
        have hpair := LocalBackend.mem_of_lookupBucket _ _ _ hlook
        have hpair2 : (k, LocalBackend.getStoredEntries
            (LocalBackend.deleteAccountLocal st id).2 k) ∈ st.buckets :=
          (LocalBackend.removeBucket_sublist st.buckets id).subset hpair
        have := hcons _ hpair2 e he
        rw [this]
        exact hk
    · show sortByDateDesc _ = []
      rw [hself]
      rfl

/-- Claim C7 witness: deleting account `A` from a store holding `A`, its
one-entry bucket, and an unrelated account `B`. -/
theorem claim7_witness :
    (LocalBackend.deleteAccountLocal
      { accounts := [sampleAccount], buckets := [("A", [sampleEntry])] } "A").1 =
      Except.ok () ∧
    LocalBackend.getEntriesByAccountLocal (LocalBackend.deleteAccountLocal
      { accounts := [sampleAccount], buckets := [("A", [sampleEntry])] } "A").2 "A" =
      [] := by
  have h := claim7_deleteAccount_cascade.2
    { accounts := [sampleAccount], buckets := [("A", [sampleEntry])] } "A"
    (by constructor
        · decide
        · intro p hp e he
          simp only [List.mem_singleton] at hp
          subst hp
          simp only [List.mem_singleton] at he
          subst he
          rfl)
  exact ⟨h.1, h.2.2.2⟩

/-! ## Claim C6 -/

/-- Claim C6 counterexample: the one-operation sequence `deleteEntry "x"`
with no `accountId` argument, run from the empty stores, fails on the local
variant (`accountId is required for local deletes`) and succeeds on the
remote variant, so the same facade sequence does not produce identical
success/failure outcomes on the two backends. -/
theorem claim6_counterexample :
    (runLocal LocalBackend.emptyStore [(Op.deleteEntry "x" none, "", 0)]).1 =
      [Except.error ApiError.validation] ∧
    (runRemote Firestore.emptyStore [(Op.deleteEntry "x" none, "", 0)]).1 =
      [Except.ok Ret.done] ∧
    (Except.error ApiError.validation : Out) ≠ Except.ok Ret.done := by
  decide

/-- Claim C6 as amended: with a common mocked id/timestamp supply, running
the same facade sequence against the two backends from coupled stores (in
particular from the two empty stores) produces identical outcomes for every
operation — the traces are equal, so the result of every `getAllAccounts`,
`getAccountById` and `getEntriesByAccount` along the way is identical — and
afterwards the two stores are again coupled and observationally identical,
provided the sequence is well-formed: every `updateEntry`/`deleteEntry`
carries the truthy `accountId` under which its target entry is stored, and
creates and date rewrites use fresh ids and, per account, fresh dates.  (The
original unconditional claim fails on sequences outside these conditions:
see the counterexample.) -/
theorem claim6_backend_equivalence (st : LocalBackend.Store)
    (rs : Firestore.Store) (ops : List ScheduledOp)
    (hc : Coupled st rs) (hwf : seqOK st ops) :
    (runLocal st ops).1 = (runRemote rs ops).1 ∧
    LocalBackend.getAllAccountsLocal (runLocal st ops).2 =
      Firestore.getAllAccounts (runRemote rs ops).2 ∧
    (∀ i, LocalBackend.getAccountByIdLocal (runLocal st ops).2 i =
      Firestore.getAccountById (runRemote rs ops).2 i) ∧
    (∀ k, LocalBackend.getEntriesByAccountLocal (runLocal st ops).2 k =
      Firestore.getEntriesByAccount (runRemote rs ops).2 k) := by
  rcases runEquiv st rs ops hc hwf with ⟨ho, hcf⟩
  refine ⟨ho, ?_, ?_, ?_⟩
  · show (runLocal st ops).2.accounts = (runRemote rs ops).2.accounts
    exact hcf.1.symm
  · intro i
    show (runLocal st ops).2.accounts.find? _ = (runRemote rs ops).2.accounts.find? _
    rw [hcf.1]
  · intro k
    exact coupled_getEntries_eq hcf k

/-- Claim C6 witness: the eight-operation fixture sequence (create account,
create entry, edit entry, read entries, delete entry, list accounts, delete
account, read account) run from the two empty stores. -/
theorem claim6_witness :
    (runLocal LocalBackend.emptyStore equivOps).1 =
      (runRemote Firestore.emptyStore equivOps).1 ∧
    (runLocal LocalBackend.emptyStore equivOps).1.length = 8 := by
  have h := claim6_backend_equivalence LocalBackend.emptyStore
    Firestore.emptyStore equivOps coupled_empty (by decide)
  exact ⟨h.1, by decide⟩

/-- Claim C1 witness: three creates, an edit of the head entry and a delete
of the head entry, starting from the fresh fixture account. -/
theorem claim1_witness :
    balanceInvariant (runProto startStore sampleAccount
      (threeCreates ++ [(ProtoOp.update "e3" 75 none, 4), (ProtoOp.delete "e3", 5)]))
      sampleAccount :=
  claim1_balance_invariant startStore sampleAccount
    (threeCreates ++ [(ProtoOp.update "e3" 75 none, 4), (ProtoOp.delete "e3", 5)])
    (by decide) (by decide) (by decide)

end BitacoraFx
